import Mathlib

/-!
Verification of the broker-inventory CLI (`tools/optout_cli.py`).

The development shallowly embeds the data model and the operations of the
CLI: JSON values are an inductive type, broker records are association
lists from field names to JSON values (Python dicts with unique keys),
and each Python function is translated to a Lean function of the same
name.  File input is modelled as an optional string (the file's content,
or `none` when the file is absent or unreadable).  Floating-point JSON
literals and strings containing lone UTF-16 surrogates are outside the
model; no inventory field in the data model uses either.
-/

set_option maxHeartbeats 1000000

/-- A JSON value as produced by `json.loads`: null, booleans, strings,
integer numbers, arrays, and objects (ordered association lists). -/
inductive Json where
  | null
  | bool (b : Bool)
  | str (s : String)
  | num (n : Int)
  | arr (xs : List Json)
  | obj (kvs : List (String × Json))

mutual

/-- Decidable equality on `Json`, written as a mutual recursion because
the nested `List` positions have no deriving handler. -/
def Json.decEq : (a b : Json) → Decidable (a = b)
  | .null, .null => isTrue rfl
  | .bool a, .bool b =>
    if h : a = b then isTrue (by rw [h]) else isFalse (by intro hh; cases hh; exact h rfl)
  | .str a, .str b =>
    if h : a = b then isTrue (by rw [h]) else isFalse (by intro hh; cases hh; exact h rfl)
  | .num a, .num b =>
    if h : a = b then isTrue (by rw [h]) else isFalse (by intro hh; cases hh; exact h rfl)
  | .arr xs, .arr ys =>
    match Json.decEqList xs ys with
    | isTrue h => isTrue (by rw [h])
    | isFalse h => isFalse (by intro hh; cases hh; exact h rfl)
  | .obj xs, .obj ys =>
    match Json.decEqFields xs ys with
    | isTrue h => isTrue (by rw [h])
    | isFalse h => isFalse (by intro hh; cases hh; exact h rfl)
  | .null, .bool _ | .null, .str _ | .null, .num _ | .null, .arr _ | .null, .obj _
  | .bool _, .null | .bool _, .str _ | .bool _, .num _ | .bool _, .arr _ | .bool _, .obj _
  | .str _, .null | .str _, .bool _ | .str _, .num _ | .str _, .arr _ | .str _, .obj _
  | .num _, .null | .num _, .bool _ | .num _, .str _ | .num _, .arr _ | .num _, .obj _
  | .arr _, .null | .arr _, .bool _ | .arr _, .str _ | .arr _, .num _ | .arr _, .obj _
  | .obj _, .null | .obj _, .bool _ | .obj _, .str _ | .obj _, .num _ | .obj _, .arr _ =>
    isFalse (by intro h; cases h)

/-- Decidable equality on lists of JSON values. -/
def Json.decEqList : (xs ys : List Json) → Decidable (xs = ys)
  | [], [] => isTrue rfl
  | x :: xs, y :: ys =>
    match Json.decEq x y, Json.decEqList xs ys with
    | isTrue h1, isTrue h2 => isTrue (by rw [h1, h2])
    | isFalse h1, _ => isFalse (by intro hh; cases hh; exact h1 rfl)
    | _, isFalse h2 => isFalse (by intro hh; cases hh; exact h2 rfl)
  | [], _ :: _ => isFalse (by intro h; cases h)
  | _ :: _, [] => isFalse (by intro h; cases h)

/-- Decidable equality on lists of JSON object fields. -/
def Json.decEqFields : (xs ys : List (String × Json)) → Decidable (xs = ys)
  | [], [] => isTrue rfl
  | (k, v) :: xs, (l, w) :: ys =>
    match String.decEq k l, Json.decEq v w, Json.decEqFields xs ys with
    | isTrue h0, isTrue h1, isTrue h2 => isTrue (by rw [h0, h1, h2])
    | isFalse h0, _, _ => isFalse (by intro hh; cases hh; exact h0 rfl)
    | _, isFalse h1, _ => isFalse (by intro hh; cases hh; exact h1 rfl)
    | _, _, isFalse h2 => isFalse (by intro hh; cases hh; exact h2 rfl)
  | [], _ :: _ => isFalse (by intro h; cases h)
  | _ :: _, [] => isFalse (by intro h; cases h)

end

instance : DecidableEq Json := Json.decEq

/-- A broker record: a Python dict mapping field names to JSON values,
modelled as an association list (keys unique in any dict produced by
`json.loads`). -/
abbrev Broker := List (String × Json)

/-- `d.get(k)`: the value stored under `k`, or `none` when the key is
absent. -/
def dictGet (b : Broker) (k : String) : Option Json :=
  match b with
  | [] => none
  | (k', v) :: rest => if k' = k then some v else dictGet rest k

/-- The keys of a record, in insertion order. -/
def dictKeys (b : Broker) : List String := b.map Prod.fst

/-! ## `parse_bool` (source lines 19-25) -/

/-- Characters stripped by Python's `str.strip()` (ASCII whitespace). -/
def isPySpace (c : Char) : Bool :=
  c = ' ' || c = '\t' || c = '\n' || c = '\r' || c = '\x0b' || c = '\x0c'

/-- `value.strip()`: remove leading and trailing whitespace. -/
def pyStrip (cs : List Char) : List Char :=
  ((cs.dropWhile isPySpace).reverse.dropWhile isPySpace).reverse

/-- ASCII lowering of one character, as `str.lower()` acts on the
characters relevant to the boolean tokens. -/
def asciiLower (c : Char) : Char :=
  if 'A' ≤ c && c ≤ 'Z' then Char.ofNat (c.toNat + 32) else c

/-- `value.lower()` on a character list. -/
def pyLower (cs : List Char) : List Char := cs.map asciiLower

/-- `value.strip().lower()` as a string. -/
def normalizeToken (s : String) : String := String.mk (pyLower (pyStrip s.data))

/-- The tokens `parse_bool` maps to `True`. -/
def trueTokens : List String := ["true", "1", "yes", "y"]

/-- The tokens `parse_bool` maps to `False`. -/
def falseTokens : List String := ["false", "0", "no", "n"]

/-- `parse_bool` (source lines 19-25): normalize with `strip().lower()`,
return a boolean for a recognized token, raise `ArgumentTypeError`
otherwise (modelled as `Except.error`). -/
def parse_bool (value : String) : Except String Bool :=
  let normalized := normalizeToken value
  if normalized ∈ trueTokens then .ok true
  else if normalized ∈ falseTokens then .ok false
  else .error ("Invalid boolean value: " ++ value)

/-! ## `filter_inventory` (source lines 41-62) -/

/-- Python truthiness of an optional string filter value: the guard
`if priority` holds iff the option is present and non-empty. -/
def optStrTruthy (o : Option String) : Bool :=
  match o with
  | none => false
  | some s => !(s = "")

/-- `broker.get(field) != s` for a string `s`, negated: Python `==`
between a string and a parsed JSON value holds iff the value is that
string. -/
def strFieldEq (v : Option Json) (s : String) : Bool :=
  match v with
  | some (.str t) => t = s
  | _ => false

/-- `broker.get(field) is q` for a boolean filter value `q`: identity
with the singletons `True`/`False` holds iff the field is present with
exactly that boolean value (a missing field yields `None`, which is
never identical to a boolean). -/
def boolFieldIs (v : Option Json) (q : Bool) : Bool :=
  match v with
  | some (.bool b) => b = q
  | _ => false

/-- The conjunction of the five per-filter guards of `filter_inventory`:
a record survives the loop body iff no `continue` fires. -/
def keepBroker (priority : Option String) (requires_phone requires_id requires_payment : Option Bool)
    (category : Option String) (b : Broker) : Bool :=
  (!(optStrTruthy priority) || strFieldEq (dictGet b "priority") (priority.getD ""))
    && (match requires_phone with
        | none => true
        | some q => boolFieldIs (dictGet b "requires_phone") q)
    && (match requires_id with
        | none => true
        | some q => boolFieldIs (dictGet b "requires_id") q)
    && (match requires_payment with
        | none => true
        | some q => boolFieldIs (dictGet b "requires_payment") q)
    && (!(optStrTruthy category) || strFieldEq (dictGet b "category") (category.getD ""))

/-- `filter_inventory` (source lines 41-62): keep, in order, exactly the
records for which none of the five guards triggers `continue`. -/
def filter_inventory (brokers : List Broker) (priority : Option String)
    (requires_phone requires_id requires_payment : Option Bool)
    (category : Option String) : List Broker :=
  brokers.filter (keepBroker priority requires_phone requires_id requires_payment category)

/-! ## `sort_brokers` (source lines 65-69) -/

/-- Strict lexicographic comparison of character lists by code point,
Python's `str` ordering. Equal prefixes: the shorter string is smaller. -/
def lexLt : List Char → List Char → Bool
  | [], [] => false
  | [], _ :: _ => true
  | _ :: _, [] => false
  | a :: as, b :: bs =>
    decide (a.toNat < b.toNat) || (decide (a.toNat = b.toNat) && lexLt as bs)

/-- `PRIORITY_ORDER.get(broker.get("priority"), 99)` (source lines 12-16,
68): the rank of a priority value, `99` for anything unrecognized or
missing. -/
def priorityRank (v : Option Json) : Nat :=
  match v with
  | some (.str s) =>
    if s = "crucial" then 0 else if s = "high" then 1 else if s = "normal" then 2 else 99
  | _ => 99

/-- `broker.get("name", "")` as a character list; the data model makes a
present `name` a string. -/
def nameChars (v : Option Json) : List Char :=
  match v with
  | some (.str s) => s.data
  | _ => []

/-- The sort key of line 68: the pair (priority rank, name). -/
def brokerKey (b : Broker) : Nat × List Char :=
  (priorityRank (dictGet b "priority"), nameChars (dictGet b "name"))

/-- Python's `<` on the key tuples: compare ranks, then names. -/
def keyLt (x y : Nat × List Char) : Bool :=
  decide (x.1 < y.1) || (decide (x.1 = y.1) && lexLt x.2 y.2)

/-- Non-strict key order, the relation `sorted` establishes. -/
def keyLe (x y : Nat × List Char) : Bool := !(keyLt y x)

/-- Insert `x` into `l` before the first element whose key is not
strictly below `x`'s key. Since `x` precedes the elements of `l` in the
input, this is the stable placement. -/
def sortInsert (f : α → κ) (klt : κ → κ → Bool) (x : α) : List α → List α
  | [] => [x]
  | y :: ys => if klt (f y) (f x) then y :: sortInsert f klt x ys else x :: y :: ys

/-- Stable insertion sort by a key function, extensionally the stable
ascending sort that Python's `sorted` performs. -/
def isortBy (f : α → κ) (klt : κ → κ → Bool) : List α → List α
  | [] => []
  | x :: xs => sortInsert f klt x (isortBy f klt xs)

/-- `sort_brokers` (source lines 65-69): stable sort by
(priority rank, name). -/
def sort_brokers (brokers : List Broker) : List Broker :=
  isortBy brokerKey keyLt brokers

/-- Records on which the Python sort cannot raise `TypeError`: a present
`name` is a string (it is compared with other names), and a present
`priority` is hashable (it is looked up in `PRIORITY_ORDER`). Every
record of the data model qualifies. -/
def sortSafe (b : Broker) : Bool :=
  (match dictGet b "name" with
   | none => true
   | some (.str _) => true
   | some _ => false)
  && (match dictGet b "priority" with
      | some (.arr _) => false
      | some (.obj _) => false
      | _ => true)

/-! ## Rendering scalars the way Python's `str` does -/

/-- Decimal digit character. -/
def digitChar (d : Nat) : Char := Char.ofNat (48 + d)

/-- The decimal digits of `n`, most significant first; the first
argument is fuel (`n` itself is always enough). -/
def natDigitsAux : Nat → Nat → List Char
  | 0, _ => []
  | fuel + 1, n => if n = 0 then [] else natDigitsAux fuel (n / 10) ++ [digitChar (n % 10)]

/-- Decimal representation of a natural number. -/
def natChars (n : Nat) : List Char :=
  if n = 0 then ['0'] else natDigitsAux n n

/-- Decimal representation of an integer, Python's `str(int)`. -/
def intChars (n : Int) : List Char :=
  if n < 0 then '-' :: natChars n.natAbs else natChars n.toNat

/-- `str(n)` for an integer as a string. -/
def intRepr (n : Int) : String := String.mk (intChars n)

mutual

/-- Python `repr` of a parsed JSON value, which `str` falls back to for
lists and dicts.  String escaping inside `repr` is modelled only for
strings without quotes or backslashes; no claim's truth depends on the
escaped cases, and every theorem touching cells restricts records to
scalar field values. -/
def pyRepr : Json → String
  | .null => "None"
  | .bool b => cond b "True" "False"
  | .num n => intRepr n
  | .str s => "'" ++ s ++ "'"
  | .arr xs => "[" ++ pyReprList xs ++ "]"
  | .obj kvs => "\x7b" ++ pyReprFields kvs ++ "\x7d"

/-- `repr` of list elements, comma-separated. -/
def pyReprList : List Json → String
  | [] => ""
  | [x] => pyRepr x
  | x :: y :: xs => pyRepr x ++ ", " ++ pyReprList (y :: xs)

/-- `repr` of dict items, comma-separated. -/
def pyReprFields : List (String × Json) → String
  | [] => ""
  | [(k, v)] => "'" ++ k ++ "': " ++ pyRepr v
  | (k, v) :: kv2 :: kvs => "'" ++ k ++ "': " ++ pyRepr v ++ ", " ++ pyReprFields (kv2 :: kvs)

end

/-- Python `str` of a parsed JSON value. -/
def pyStr : Json → String
  | .str s => s
  | v => pyRepr v

/-! ## `render_table` (source lines 72-104) -/

/-- A string cell of the table: `broker.get(field, "")` (the data model
makes a present value a string; other values would make Python's later
`len` call raise, and are rendered through `str` here). -/
def tableStrCell (v : Option Json) : String :=
  match v with
  | none => ""
  | some (.str s) => s
  | some w => pyStr w

/-- A boolean cell: `str(broker.get(field, False)).lower()`. -/
def tableBoolCell (v : Option Json) : String :=
  String.mk (pyLower (pyStr (v.getD (Json.bool false))).data)

/-- The header row of the table (source lines 73-82). -/
def tableHeader : List String :=
  ["Name", "Priority", "Requires Phone", "Requires ID", "Requires Payment", "Category"]

/-- One data row (source lines 83-93). -/
def tableRow (b : Broker) : List String :=
  [tableStrCell (dictGet b "name"),
   tableStrCell (dictGet b "priority"),
   tableBoolCell (dictGet b "requires_phone"),
   tableBoolCell (dictGet b "requires_id"),
   tableBoolCell (dictGet b "requires_payment"),
   tableStrCell (dictGet b "category")]

/-- `value.ljust(w)`: pad on the right with spaces to width `w`. -/
def ljust (s : String) (w : Nat) : String :=
  s ++ String.mk (List.replicate (w - s.length) ' ')

/-- `sep.join(parts)`. -/
def joinSep (sep : String) : List String → String
  | [] => ""
  | [x] => x
  | x :: y :: xs => x ++ sep ++ joinSep sep (y :: xs)

/-- `render_table` (source lines 72-104): header, dash separator, one
line per record; columns left-justified to the widest entry and joined
with " | ". -/
def render_table (brokers : List Broker) : String :=
  let rows := tableHeader :: brokers.map tableRow
  let widths := (List.range tableHeader.length).map
    (fun idx => rows.foldl (fun acc row => max acc (row.getD idx "").length) 0)
  let renderRow := fun (row : List String) =>
    joinSep " | " ((row.zip widths).map (fun p => ljust p.1 p.2))
  let sepLine := joinSep " | " (widths.map (fun w => String.mk (List.replicate w '-')))
  joinSep "\n" (renderRow tableHeader :: sepLine :: (brokers.map tableRow).map renderRow)

/-! ## `export_csv` (source lines 107-127) -/

/-- The fixed CSV field order (source lines 108-116). -/
def csvFieldnames : List String :=
  ["name", "priority", "category", "requires_phone", "requires_id", "requires_payment",
   "opt_out_url"]

/-- QUOTE_MINIMAL: a field is quoted iff it contains the delimiter, the
quote character, or a line-terminator character. -/
def csvNeedsQuote (s : String) : Bool :=
  s.data.any (fun c => c = ',' || c = '"' || c = '\r' || c = '\n')

/-- Quote a CSV field when needed, doubling embedded quote characters. -/
def csvQuote (s : String) : String :=
  if csvNeedsQuote s then
    "\"" ++ String.mk ((s.data.map (fun c => if c = '"' then ['"', '"'] else [c])).flatten) ++ "\""
  else s

/-- The text the CSV writer puts in one field: `""` for a missing key
(`restval`) and for `None`, `str(value)` for any other non-string. -/
def csvCell (v : Option Json) : String :=
  match v with
  | none => ""
  | some .null => ""
  | some (.bool b) => cond b "True" "False"
  | some (.num n) => intRepr n
  | some (.str s) => s
  | some w => pyStr w

/-- One CSV data row, fields in the fixed order, `\r\n`-terminated. -/
def csvRow (b : Broker) : String :=
  joinSep "," (csvFieldnames.map (fun f => csvQuote (csvCell (dictGet b f)))) ++ "\r\n"

/-- The header row written by `writeheader`. -/
def csvHeaderLine : String :=
  joinSep "," (csvFieldnames.map csvQuote) ++ "\r\n"

/-- The keys of a record that are not among the declared fieldnames;
`DictWriter` raises `ValueError` when any exist. -/
def brokerExtraKeys (b : Broker) : List String :=
  (dictKeys b).filter (fun k => !(csvFieldnames.contains k))

/-- `export_csv` (source lines 107-127): header plus one row per record,
or a `ValueError` when some record holds a key outside the declared
fieldnames. -/
def export_csv (brokers : List Broker) : Except String String :=
  if brokers.any (fun b => !(brokerExtraKeys b).isEmpty) then
    .error "dict contains fields not in fieldnames"
  else
    .ok (csvHeaderLine ++ String.join (brokers.map csvRow))

/-- A scalar JSON value (not a container): on these, every cell
rendering in the model agrees with Python exactly, and `deepSort` is
the identity. The data model's field values are all scalars. -/
def scalarVal (v : Json) : Bool :=
  match v with
  | .arr _ => false
  | .obj _ => false
  | _ => true

/-- A record all of whose field values are scalars. -/
def scalarBroker (b : Broker) : Bool := b.all (fun kv => scalarVal kv.2)

/-! ## `json.dumps(payload, indent=2, sort_keys=True)` -/

/-- Hex digit (lowercase, as `%04x` formats). -/
def hexDigitChar (d : Nat) : Char :=
  if d < 10 then Char.ofNat (48 + d) else Char.ofNat (87 + d)

/-- Four-digit hex rendering of `n < 0x10000`. -/
def hex4 (n : Nat) : List Char :=
  [hexDigitChar (n / 4096 % 16), hexDigitChar (n / 256 % 16),
   hexDigitChar (n / 16 % 16), hexDigitChar (n % 16)]

/-- `json.dumps` escaping of one character with `ensure_ascii` (the
default): short escapes for the common controls, `\uXXXX` for other
controls and for everything outside printable ASCII, surrogate pairs
above the BMP. -/
def escChar (c : Char) : List Char :=
  if c = '"' then ['\\', '"']
  else if c = '\\' then ['\\', '\\']
  else if c = '\n' then ['\\', 'n']
  else if c = '\t' then ['\\', 't']
  else if c = '\r' then ['\\', 'r']
  else if c = '\x08' then ['\\', 'b']
  else if c = '\x0c' then ['\\', 'f']
  else if c.toNat < 0x20 || 0x7e < c.toNat then
    if c.toNat < 0x10000 then '\\' :: 'u' :: hex4 c.toNat
    else
      ('\\' :: 'u' :: hex4 (0xd800 + (c.toNat - 0x10000) / 0x400))
        ++ ('\\' :: 'u' :: hex4 (0xdc00 + (c.toNat - 0x10000) % 0x400))
  else [c]

/-- Serialize a string literal with its surrounding quotes. -/
def serStr (cs : List Char) : List Char :=
  '"' :: (cs.map escChar).flatten ++ ['"']

/-- The `2 * indent`-space prefix of a line at nesting depth `ind`. -/
def spacesIndent (ind : Nat) : List Char := List.replicate (2 * ind) ' '

mutual

/-- The text `json.dumps(v, indent=2)` produces (sorting of object keys
is factored out into `deepSort` below, applied before serializing). -/
def serVal : Nat → Json → List Char
  | _, .null => ['n', 'u', 'l', 'l']
  | _, .bool true => ['t', 'r', 'u', 'e']
  | _, .bool false => ['f', 'a', 'l', 's', 'e']
  | _, .num n => intChars n
  | _, .str s => serStr s.data
  | _, .arr [] => ['[', ']']
  | ind, .arr (x :: xs) =>
    '[' :: '\n' :: spacesIndent (ind + 1) ++ serVal (ind + 1) x ++ serItems (ind + 1) xs
      ++ '\n' :: spacesIndent ind ++ [']']
  | _, .obj [] => ['\x7b', '\x7d']
  | ind, .obj ((k, v) :: kvs) =>
    '\x7b' :: '\n' :: spacesIndent (ind + 1) ++ serStr k.data ++ ':' :: ' '
      :: serVal (ind + 1) v ++ serFields (ind + 1) kvs
      ++ '\n' :: spacesIndent ind ++ ['\x7d']

/-- The remaining array items, each preceded by ",\n" and indentation. -/
def serItems : Nat → List Json → List Char
  | _, [] => []
  | ind, x :: xs =>
    ',' :: '\n' :: spacesIndent ind ++ serVal ind x ++ serItems ind xs

/-- The remaining object members, each preceded by ",\n" and
indentation, with the `": "` key separator. -/
def serFields : Nat → List (String × Json) → List Char
  | _, [] => []
  | ind, (k, v) :: kvs =>
    ',' :: '\n' :: spacesIndent ind ++ serStr k.data ++ ':' :: ' '
      :: serVal ind v ++ serFields ind kvs

end

mutual

/-- `sort_keys=True`: sort the members of every object by key
(lexicographically by code point, Python's `str` order), recursively. -/
def deepSort : Json → Json
  | .null => .null
  | .bool b => .bool b
  | .str s => .str s
  | .num n => .num n
  | .arr xs => .arr (deepSortList xs)
  | .obj kvs => .obj (isortBy (fun kv => kv.1.data) lexLt (deepSortFields kvs))

/-- `deepSort` on every element of an array. -/
def deepSortList : List Json → List Json
  | [] => []
  | x :: xs => deepSort x :: deepSortList xs

/-- `deepSort` on every member value of an object. -/
def deepSortFields : List (String × Json) → List (String × Json)
  | [] => []
  | (k, v) :: kvs => (k, deepSort v) :: deepSortFields kvs

end

/-- `json.dumps(v, indent=2, sort_keys=True)`. -/
def pyJsonDumps (v : Json) : String := String.mk (serVal 0 (deepSort v))

/-- `export_json` (source lines 130-137), standard-output form: the
pretty-printed array of the raw record mappings, plus the trailing
newline `main` writes. -/
def export_json (brokers : List Broker) : String :=
  pyJsonDumps (Json.arr (brokers.map Json.obj)) ++ "\n"

/-! ## `json.loads` (the parser behind `load_inventory`) -/

/-- JSON inter-token whitespace. -/
def isJsonWs (c : Char) : Bool :=
  c = ' ' || c = '\t' || c = '\n' || c = '\r'

/-- Skip inter-token whitespace. -/
def skipWs (cs : List Char) : List Char := cs.dropWhile isJsonWs

/-- The value of one hex digit, either case. -/
def hexVal (c : Char) : Option Nat :=
  if '0' ≤ c && c ≤ '9' then some (c.toNat - 48)
  else if 'a' ≤ c && c ≤ 'f' then some (c.toNat - 87)
  else if 'A' ≤ c && c ≤ 'F' then some (c.toNat - 55)
  else none

/-- Decode four hex digits into a code unit. -/
def decodeHex4 (a b c d : Char) : Option Nat := do
  let ha ← hexVal a
  let hb ← hexVal b
  let hc ← hexVal c
  let hd ← hexVal d
  some (ha * 4096 + hb * 256 + hc * 16 + hd)

mutual

/-- Parse the body of a string literal after the opening quote: plain
characters, short escapes, `\uXXXX` with surrogate-pair recombination.
A lone surrogate (which Python would keep as a surrogate code unit) is
outside the model and rejected; unescaped control characters are
rejected as in strict-mode `json.loads`. -/
def parseStrBody : List Char → Option (List Char × List Char)
  | [] => none
  | '"' :: rest => some ([], rest)
  | '\\' :: 'u' :: a :: b :: c :: d :: rest =>
    (match decodeHex4 a b c d with
     | none => none
     | some n =>
       if 0xd800 ≤ n ∧ n < 0xdc00 then parseLowSurrogate n rest
       else if 0xdc00 ≤ n ∧ n < 0xe000 then none
       else (parseStrBody rest).map (fun p => (Char.ofNat n :: p.1, p.2)))
  | '\\' :: c :: rest =>
    ((match c with
      | '"' => some '"'
      | '\\' => some '\\'
      | '/' => some '/'
      | 'b' => some '\x08'
      | 'f' => some '\x0c'
      | 'n' => some '\n'
      | 'r' => some '\r'
      | 't' => some '\t'
      | _ => none : Option Char)).bind
      (fun e => (parseStrBody rest).map (fun p => (e :: p.1, p.2)))
  | c :: rest =>
    if c.toNat < 0x20 then none
    else (parseStrBody rest).map (fun p => (c :: p.1, p.2))

/-- After a high surrogate, parse the mandatory low-surrogate escape and
recombine the pair into one character. -/
def parseLowSurrogate (n : Nat) : List Char → Option (List Char × List Char)
  | '\\' :: 'u' :: e :: f :: g :: h :: rest2 =>
    (match decodeHex4 e f g h with
     | none => none
     | some m =>
       if 0xdc00 ≤ m ∧ m < 0xe000 then
         (parseStrBody rest2).map (fun p =>
           (Char.ofNat (0x10000 + (n - 0xd800) * 0x400 + (m - 0xdc00)) :: p.1, p.2))
       else none)
  | _ => none

end

/-- Accumulate decimal digits. -/
def readDigits : List Char → Nat → Nat × List Char
  | [], acc => (acc, [])
  | c :: rest, acc =>
    if c.isDigit then readDigits rest (acc * 10 + (c.toNat - 48)) else (acc, c :: rest)

/-- Parse an unsigned JSON integer: `0`, or a nonzero leading digit
followed by more digits (the `(?:0|[1-9]\d*)` part of the number
grammar). -/
def parseNatNum : List Char → Option (Nat × List Char)
  | [] => none
  | '0' :: rest => some (0, rest)
  | c :: rest =>
    if c.isDigit then some (readDigits rest (c.toNat - 48)) else none

/-- Parse a JSON integer with optional sign. Fractional and exponent
parts (floats) are outside the model. -/
def parseNum : List Char → Option (Int × List Char)
  | '-' :: rest => (parseNatNum rest).map (fun p => (-(p.1 : Int), p.2))
  | cs => (parseNatNum cs).map (fun p => ((p.1 : Int), p.2))

mutual

/-- Parse one JSON value at the head of the input (no leading
whitespace), returning it with the unconsumed suffix. The first
argument is fuel; `pyJsonLoads` supplies enough for any input it
accepts. -/
def parseVal : Nat → List Char → Option (Json × List Char)
  | 0, _ => none
  | fuel + 1, cs =>
    match cs with
    | 'n' :: 'u' :: 'l' :: 'l' :: rest => some (.null, rest)
    | 't' :: 'r' :: 'u' :: 'e' :: rest => some (.bool true, rest)
    | 'f' :: 'a' :: 'l' :: 's' :: 'e' :: rest => some (.bool false, rest)
    | '"' :: rest => do
      let (s, r) ← parseStrBody rest
      some (.str (String.mk s), r)
    | '[' :: rest =>
      (match skipWs rest with
       | ']' :: r => some (.arr [], r)
       | cs1 => do
         let (vs, r) ← parseElems fuel cs1
         some (.arr vs, r))
    | '\x7b' :: rest =>
      (match skipWs rest with
       | '\x7d' :: r => some (.obj [], r)
       | cs1 => do
         let (kvs, r) ← parseFields fuel cs1
         some (.obj kvs, r))
    | _ => (parseNum cs).map (fun p => (Json.num p.1, p.2))

/-- Parse the elements of a non-empty array, positioned at the first
character of an element, up to and including the closing bracket. -/
def parseElems : Nat → List Char → Option (List Json × List Char)
  | 0, _ => none
  | fuel + 1, cs =>
    (parseVal fuel cs).bind (fun vr =>
      match skipWs vr.2 with
      | ',' :: r2 => (parseElems fuel (skipWs r2)).map (fun p => (vr.1 :: p.1, p.2))
      | ']' :: r2 => some ([vr.1], r2)
      | _ => none)

/-- Parse the members of a non-empty object, positioned at the opening
quote of a key, up to and including the closing brace. -/
def parseFields : Nat → List Char → Option (List (String × Json) × List Char)
  | 0, _ => none
  | fuel + 1, cs =>
    match cs with
    | '"' :: rest =>
      (parseStrBody rest).bind (fun kr =>
        match skipWs kr.2 with
        | ':' :: r2 =>
          (parseVal fuel (skipWs r2)).bind (fun vr =>
            match skipWs vr.2 with
            | ',' :: r5 => (parseFields fuel (skipWs r5)).map (fun p =>
                ((String.mk kr.1, vr.1) :: p.1, p.2))
            | '\x7d' :: r5 => some ([(String.mk kr.1, vr.1)], r5)
            | _ => none)
        | _ => none)
    | _ => none

end

/-- `json.loads` on the integer fragment of JSON: parse one value
surrounded by optional whitespace; anything else is a decode error. -/
def pyJsonLoads (s : String) : Option Json :=
  match parseVal (2 * (skipWs s.data).length + 2) (skipWs s.data) with
  | some (v, rest) => if skipWs rest = [] then some v else none
  | none => none

/-- A suffix that cannot extend a just-parsed number: empty, or starting
with a non-digit. Inside serialized arrays and objects every value is
followed by `,`, a newline, or a closing bracket, all non-digits. -/
def notDigitStart (cs : List Char) : Bool :=
  match cs with
  | [] => true
  | c :: _ => !c.isDigit

/-- Head shape that sends `parseVal` into its number branch. -/
def headDigitOrMinus (cs : List Char) : Bool :=
  match cs with
  | [] => false
  | c :: _ => c.isDigit || c = '-'

mutual

/-- Fuel needed by `parseVal` on the serialization of a value. -/
def wVal : Json → Nat
  | .null => 1
  | .bool _ => 1
  | .str _ => 1
  | .num _ => 1
  | .arr xs => 1 + wElems xs
  | .obj kvs => 1 + wFields kvs

/-- Fuel needed by `parseElems` over the serialized elements. -/
def wElems : List Json → Nat
  | [] => 1
  | x :: xs => 1 + wVal x + wElems xs

/-- Fuel needed by `parseFields` over the serialized members. -/
def wFields : List (String × Json) → Nat
  | [] => 1
  | (_, v) :: kvs => 1 + wVal v + wFields kvs

end

/-! ## `load_inventory` (source lines 28-38) and the command surface -/

/-- `load_inventory` (source lines 28-38). The file system is modelled
by the optional file content: `none` when `read_text` raises. The three
`SystemExit` messages of the source become `Except.error`. -/
def load_inventory : Option String → Except String (List Json)
  | none => .error "Inventory file not found"
  | some content =>
    match pyJsonLoads content with
    | none => .error "Inventory file is not valid JSON"
    | some (.arr xs) => .ok xs
    | some _ => .error "Inventory file must contain a list of brokers."

/-- The `--format` choice of the `export` subcommand. -/
inductive ExportFormat where
  | csv
  | json

/-- The three subcommands (source lines 176-196). -/
inductive CliCommand where
  | list
  | filter
  | exportCmd (fmt : ExportFormat)

/-- The dispatch of `main` (source lines 198-221) after loading: filter,
sort, then render according to the command; `print` appends a newline to
the table. -/
def runCommand (cmd : CliCommand) (brokers : List Broker) (priority : Option String)
    (requires_phone requires_id requires_payment : Option Bool)
    (category : Option String) : Except String String :=
  let ordered := sort_brokers
    (filter_inventory brokers priority requires_phone requires_id requires_payment category)
  match cmd with
  | .list => .ok (render_table ordered ++ "\n")
  | .filter => .ok (render_table ordered ++ "\n")
  | .exportCmd .csv => export_csv ordered
  | .exportCmd .json => .ok (export_json ordered)

/-! ## Helper lemmas -/

theorem lexLt_irrefl : ∀ s, lexLt s s = false
  | [] => rfl
  | a :: as => by simp [lexLt, lexLt_irrefl as]

theorem lexLt_asym : ∀ a b, lexLt a b = true → lexLt b a = false
  | [], [], _ => rfl
  | [], _ :: _, _ => rfl
  | _ :: _, [], h => by cases h
  | a :: as, b :: bs, h => by
    simp only [lexLt, Bool.or_eq_true, Bool.and_eq_true, decide_eq_true_eq] at h ⊢
    rcases h with h | ⟨heq, hl⟩
    · simp only [Bool.or_eq_false_iff, Bool.and_eq_false_iff, decide_eq_false_iff_not]
      constructor
      · omega
      · left
        omega
    · simp only [Bool.or_eq_false_iff, Bool.and_eq_false_iff, decide_eq_false_iff_not]
      constructor
      · omega
      · right
        exact lexLt_asym as bs hl

theorem lexLt_nlt_trans : ∀ a b c : List Char,
    lexLt b a = false → lexLt c b = false → lexLt c a = false
  | [], _, c, _, _ => by cases c <;> rfl
  | _ :: _, [], _, h, _ => by cases h
  | _ :: _, _ :: _, [], _, h => by cases h
  | a :: as, b :: bs, c :: cs, h1, h2 => by
    simp only [lexLt, Bool.or_eq_false_iff, Bool.and_eq_false_iff,
      decide_eq_false_iff_not] at h1 h2 ⊢
    obtain ⟨hba, hba2⟩ := h1
    obtain ⟨hcb, hcb2⟩ := h2
    constructor
    · omega
    · by_cases hca : c.toNat = a.toNat
      · rcases hba2 with hne | hl
        · omega
        · rcases hcb2 with hne2 | hl2
          · omega
          · right
            exact lexLt_nlt_trans as bs cs hl hl2
      · left
        exact hca

theorem keyLt_irrefl (k : Nat × List Char) : keyLt k k = false := by
  simp [keyLt, lexLt_irrefl]

theorem keyLt_asym (p q : Nat × List Char) (h : keyLt p q = true) : keyLt q p = false := by
  simp only [keyLt, Bool.or_eq_true, Bool.and_eq_true, decide_eq_true_eq] at h
  simp only [keyLt, Bool.or_eq_false_iff, Bool.and_eq_false_iff, decide_eq_false_iff_not]
  rcases h with h | ⟨heq, hl⟩
  · exact ⟨by omega, Or.inl (by omega)⟩
  · exact ⟨by omega, Or.inr (lexLt_asym _ _ hl)⟩

theorem keyLt_nlt_trans (p q r : Nat × List Char)
    (h1 : keyLt q p = false) (h2 : keyLt r q = false) : keyLt r p = false := by
  simp only [keyLt, Bool.or_eq_false_iff, Bool.and_eq_false_iff,
    decide_eq_false_iff_not] at h1 h2 ⊢
  obtain ⟨hqp, hqp2⟩ := h1
  obtain ⟨hrq, hrq2⟩ := h2
  constructor
  · omega
  · by_cases hrp : r.1 = p.1
    · rcases hqp2 with hne | hl
      · omega
      · rcases hrq2 with hne2 | hl2
        · omega
        · right
          exact lexLt_nlt_trans p.2 q.2 r.2 hl hl2
    · left
      exact hrp

theorem sortInsert_perm (f : α → κ) (klt : κ → κ → Bool) (x : α) :
    ∀ l : List α, (sortInsert f klt x l).Perm (x :: l)
  | [] => List.Perm.refl _
  | y :: ys => by
    unfold sortInsert
    split
    · exact ((sortInsert_perm f klt x ys).cons y).trans (List.Perm.swap x y ys)
    · exact List.Perm.refl _

theorem isortBy_perm (f : α → κ) (klt : κ → κ → Bool) :
    ∀ l : List α, (isortBy f klt l).Perm l
  | [] => List.Perm.refl _
  | x :: xs =>
    (sortInsert_perm f klt x (isortBy f klt xs)).trans ((isortBy_perm f klt xs).cons x)

theorem sortInsert_pairwise (f : α → κ) (klt : κ → κ → Bool)
    (hasym : ∀ p q, klt p q = true → klt q p = false)
    (htrans : ∀ p q r, klt q p = false → klt r q = false → klt r p = false)
    (x : α) : ∀ l : List α,
    l.Pairwise (fun a b => klt (f b) (f a) = false) →
    (sortInsert f klt x l).Pairwise (fun a b => klt (f b) (f a) = false)
  | [], _ => by simp [sortInsert]
  | y :: ys, hl => by
    rw [List.pairwise_cons] at hl
    obtain ⟨hy, hys⟩ := hl
    unfold sortInsert
    split
    · rename_i hlt
      rw [List.pairwise_cons]
      refine ⟨?_, sortInsert_pairwise f klt hasym htrans x ys hys⟩
      intro a ha
      have hmem : a ∈ x :: ys := (sortInsert_perm f klt x ys).mem_iff.mp ha
      rcases List.mem_cons.mp hmem with rfl | h
      · exact hasym _ _ hlt
      · exact hy a h
    · rename_i hnlt
      have hnlt' : klt (f y) (f x) = false := by
        revert hnlt
        cases klt (f y) (f x) <;> simp
      rw [List.pairwise_cons]
      refine ⟨?_, List.pairwise_cons.mpr ⟨hy, hys⟩⟩
      intro a ha
      rcases List.mem_cons.mp ha with rfl | h
      · exact hnlt'
      · exact htrans _ _ _ hnlt' (hy a h)

theorem isortBy_pairwise (f : α → κ) (klt : κ → κ → Bool)
    (hasym : ∀ p q, klt p q = true → klt q p = false)
    (htrans : ∀ p q r, klt q p = false → klt r q = false → klt r p = false) :
    ∀ l : List α, (isortBy f klt l).Pairwise (fun a b => klt (f b) (f a) = false)
  | [] => List.Pairwise.nil
  | x :: xs =>
    sortInsert_pairwise f klt hasym htrans x (isortBy f klt xs)
      (isortBy_pairwise f klt hasym htrans xs)

theorem sortInsert_filter_pos [DecidableEq κ] (f : α → κ) (klt : κ → κ → Bool) (k0 : κ)
    (hirr : klt k0 k0 = false) (x : α) (hx : f x = k0) :
    ∀ l : List α,
    (sortInsert f klt x l).filter (fun a => decide (f a = k0))
      = x :: l.filter (fun a => decide (f a = k0))
  | [] => by simp [sortInsert, List.filter, hx]
  | y :: ys => by
    unfold sortInsert
    split
    · rename_i hlt
      have hyk : ¬ (f y = k0) := by
        intro hyk
        rw [hyk, hx] at hlt
        rw [hirr] at hlt
        cases hlt
      rw [List.filter_cons, List.filter_cons]
      simp only [hyk, decide_False]
      exact sortInsert_filter_pos f klt k0 hirr x hx ys
    · rw [List.filter_cons]
      simp [hx]

theorem sortInsert_filter_neg [DecidableEq κ] (f : α → κ) (klt : κ → κ → Bool) (k0 : κ)
    (x : α) (hx : ¬ (f x = k0)) :
    ∀ l : List α,
    (sortInsert f klt x l).filter (fun a => decide (f a = k0))
      = l.filter (fun a => decide (f a = k0))
  | [] => by simp [sortInsert, List.filter, hx]
  | y :: ys => by
    unfold sortInsert
    split
    · rw [List.filter_cons, List.filter_cons, sortInsert_filter_neg f klt k0 x hx ys]
    · rw [List.filter_cons]
      simp [hx]

theorem isortBy_filter_key [DecidableEq κ] (f : α → κ) (klt : κ → κ → Bool)
    (hirr : ∀ k, klt k k = false) :
    ∀ (k0 : κ) (l : List α),
    (isortBy f klt l).filter (fun a => decide (f a = k0))
      = l.filter (fun a => decide (f a = k0))
  | _, [] => rfl
  | k0, x :: xs => by
    show (sortInsert f klt x (isortBy f klt xs)).filter _ = _
    by_cases hx : f x = k0
    · rw [sortInsert_filter_pos f klt k0 (hirr k0) x hx, List.filter_cons,
        isortBy_filter_key f klt hirr k0 xs]
      simp [hx]
    · rw [sortInsert_filter_neg f klt k0 x hx, List.filter_cons,
        isortBy_filter_key f klt hirr k0 xs]
      simp [hx]

theorem countP_filter_eq_ite [DecidableEq α] (q : α → Bool) (b : α) :
    ∀ l : List α, (l.filter q).countP (fun x => decide (x = b))
      = if q b then l.countP (fun x => decide (x = b)) else 0
  | [] => by
    by_cases h : q b = true <;> simp [h]
  | a :: l => by
    rw [List.filter_cons]
    by_cases hqa : q a = true
    · rw [if_pos hqa, List.countP_cons, List.countP_cons, countP_filter_eq_ite q b l]
      by_cases hab : a = b
      · subst hab
        simp [hqa]
      · simp [hab]
    · rw [if_neg hqa, countP_filter_eq_ite q b l]
      by_cases hab : a = b
      · subst hab
        simp [hqa]
      · simp [hab]

/-! ## Claim theorems -/

/-- Claim C1 is false on the code: a record missing `requires_phone`,
filtered with `requires_phone = false`, is excluded rather than kept,
because `broker.get("requires_phone")` has no default and `None` is not
identical to `False`. -/
theorem filter_missing_bool_excluded_counterexample :
    filter_inventory [[("name", Json.str "B")]] none (some false) none none none = []
    ∧ dictGet [("name", Json.str "B")] "requires_phone" = none := by
  exact ⟨by decide, by decide⟩

/-- Claim C1 amended: a supplied boolean filter keeps exactly the
records whose field is present with that boolean value; a record
missing the field (or holding a non-boolean) is excluded by any
supplied boolean filter, including `false` — missing boolean fields do
not default to `false` in filtering. -/
theorem filter_bool_no_default :
    ∀ (bs : List Broker) (q : Bool),
    filter_inventory bs none (some q) none none none
      = bs.filter (fun b => boolFieldIs (dictGet b "requires_phone") q)
    ∧ filter_inventory bs none none (some q) none none
      = bs.filter (fun b => boolFieldIs (dictGet b "requires_id") q)
    ∧ filter_inventory bs none none none (some q) none
      = bs.filter (fun b => boolFieldIs (dictGet b "requires_payment") q)
    ∧ (∀ v : Option Json, boolFieldIs v q = true ↔ v = some (Json.bool q)) := by
  intro bs q
  refine ⟨?_, ?_, ?_, ?_⟩
  · exact List.filter_congr (fun b _ => by simp [keepBroker, optStrTruthy])
  · exact List.filter_congr (fun b _ => by simp [keepBroker, optStrTruthy])
  · exact List.filter_congr (fun b _ => by simp [keepBroker, optStrTruthy])
  · intro v
    match v with
    | none => simp [boolFieldIs]
    | some .null => simp [boolFieldIs]
    | some (.bool b) => simp [boolFieldIs, eq_comm]
    | some (.str s) => simp [boolFieldIs]
    | some (.num n) => simp [boolFieldIs]
    | some (.arr xs) => simp [boolFieldIs]
    | some (.obj kvs) => simp [boolFieldIs]

/-- Claim C2: `filter_inventory` is exactly the order-preserving
selection of the records satisfying all supplied filters — a sublist of
the input, membership is membership-plus-predicate, multiplicity is
preserved for kept records and zero for dropped ones, and with no
filters supplied every record is kept unchanged. -/
theorem filter_inventory_exact_selection :
    ∀ (bs : List Broker) (pf : Option String) (rp ri rpay : Option Bool) (cf : Option String),
    filter_inventory bs pf rp ri rpay cf = bs.filter (keepBroker pf rp ri rpay cf)
    ∧ (filter_inventory bs pf rp ri rpay cf).Sublist bs
    ∧ (∀ b : Broker, b ∈ filter_inventory bs pf rp ri rpay cf
        ↔ b ∈ bs ∧ keepBroker pf rp ri rpay cf b = true)
    ∧ (∀ b : Broker, (filter_inventory bs pf rp ri rpay cf).countP (fun x => decide (x = b))
        = if keepBroker pf rp ri rpay cf b then bs.countP (fun x => decide (x = b)) else 0)
    ∧ filter_inventory bs none none none none none = bs := by
  intro bs pf rp ri rpay cf
  refine ⟨rfl, List.filter_sublist bs, ?_, ?_, ?_⟩
  · intro b
    exact List.mem_filter
  · intro b
    exact countP_filter_eq_ite (keepBroker pf rp ri rpay cf) b bs
  · rw [show filter_inventory bs none none none none none
        = bs.filter (keepBroker none none none none none) from rfl]
    rw [List.filter_congr (fun b _ => by simp [keepBroker, optStrTruthy] : ∀ b ∈ bs,
      keepBroker none none none none none b = true)]
    exact List.filter_true bs

/-- Claim C6 is false as stated: `" true "` is accepted (mapped to
`True`) although it is not, even case-insensitively, one of the tokens
`true/1/yes/y` — `parse_bool` also strips surrounding whitespace before
comparing. -/
theorem parse_bool_strip_counterexample :
    parse_bool " true " = .ok true
    ∧ String.mk (pyLower (" true ").data) ∉ trueTokens
    ∧ String.mk (pyLower (" true ").data) ∉ falseTokens := by
  exact ⟨rfl, by decide, by decide⟩

/-- Claim C6 amended: after stripping surrounding whitespace and
lowercasing, `parse_bool` accepts exactly the tokens `true/1/yes/y`
(returning `True`) and `false/0/no/n` (returning `False`); anything
else raises the argument-type error before filtering runs. -/
theorem parse_bool_token_sets :
    ∀ s : String,
    (parse_bool s = .ok true ↔ normalizeToken s ∈ trueTokens)
    ∧ (parse_bool s = .ok false ↔ normalizeToken s ∈ falseTokens)
    ∧ (normalizeToken s ∉ trueTokens → normalizeToken s ∉ falseTokens →
        parse_bool s = .error ("Invalid boolean value: " ++ s)) := by
  intro s
  by_cases ht : normalizeToken s ∈ trueTokens
  · have hdisj : ∀ t ∈ trueTokens, t ∉ falseTokens := by decide
    have hf : normalizeToken s ∉ falseTokens := hdisj _ ht
    simp [parse_bool, ht, hf]
  · by_cases hf : normalizeToken s ∈ falseTokens
    · simp [parse_bool, ht, hf]
    · simp [parse_bool, ht, hf]

/-- Witness for the amended C6 theorem at concrete inputs. -/
theorem parse_bool_token_sets_witness :
    parse_bool "maybe" = .error ("Invalid boolean value: " ++ "maybe") :=
  (parse_bool_token_sets "maybe").2.2 (by decide) (by decide)

/-- Claim C8: the `list` and `filter` commands are the same operation —
both load, filter, order, and render the table (with the trailing
newline of `print`). -/
theorem list_filter_commands_agree :
    ∀ (bs : List Broker) (pf : Option String) (rp ri rpay : Option Bool) (cf : Option String),
    runCommand .list bs pf rp ri rpay cf = runCommand .filter bs pf rp ri rpay cf
    ∧ runCommand .list bs pf rp ri rpay cf
        = .ok (render_table (sort_brokers (filter_inventory bs pf rp ri rpay cf)) ++ "\n") := by
  intro bs pf rp ri rpay cf
  exact ⟨rfl, rfl⟩

/-- Claim C9: CSV export is partial — any record with a key outside the
seven declared fieldnames makes `export_csv` raise the `DictWriter`
`ValueError` instead of returning output. -/
theorem export_csv_extra_key_error :
    ∀ (bs : List Broker) (b : Broker) (k : String),
    b ∈ bs → k ∈ dictKeys b → k ∉ csvFieldnames →
    export_csv bs = .error "dict contains fields not in fieldnames" := by
  intro bs b k hb hk hnot
  have hx : k ∈ brokerExtraKeys b := by
    rw [brokerExtraKeys, List.mem_filter]
    refine ⟨hk, ?_⟩
    simp only [Bool.not_eq_true']
    cases hc : csvFieldnames.contains k
    · rfl
    · exact absurd (List.mem_of_elem_eq_true hc) hnot
  have hne : (brokerExtraKeys b).isEmpty = false := by
    cases hxs : brokerExtraKeys b with
    | nil => rw [hxs] at hx; cases hx
    | cons a l => simp [List.isEmpty]
  have hany : bs.any (fun b => !(brokerExtraKeys b).isEmpty) = true := by
    rw [List.any_eq_true]
    exact ⟨b, hb, by rw [hne]; rfl⟩
  rw [export_csv, if_pos hany]

/-- Witness for C9 at a concrete record with an unrecognized key. -/
theorem export_csv_extra_key_error_witness :
    export_csv [[("nickname", Json.str "A")]]
      = .error "dict contains fields not in fieldnames" :=
  export_csv_extra_key_error [[("nickname", Json.str "A")]] [("nickname", Json.str "A")]
    "nickname" (by decide) (by decide) (by decide)

/-- Claim C10: an empty-string value supplied for the `category` (or
`priority`) filter is falsy in the guard, so it imposes no constraint:
filtering behaves exactly as with the filter absent, and with all other
filters absent every record is kept. -/
theorem empty_string_filters_no_constraint :
    ∀ (bs : List Broker) (pf : Option String) (rp ri rpay : Option Bool) (cf : Option String),
    filter_inventory bs pf rp ri rpay (some "") = filter_inventory bs pf rp ri rpay none
    ∧ filter_inventory bs (some "") rp ri rpay cf = filter_inventory bs none rp ri rpay cf
    ∧ filter_inventory bs none none none none (some "") = bs
    ∧ filter_inventory bs (some "") none none none none = bs := by
  intro bs pf rp ri rpay cf
  refine ⟨?_, ?_, ?_, ?_⟩
  · exact List.filter_congr (fun b _ => by simp [keepBroker, optStrTruthy])
  · exact List.filter_congr (fun b _ => by simp [keepBroker, optStrTruthy])
  · rw [show filter_inventory bs none none none none (some "")
        = bs.filter (keepBroker none none none none (some "")) from rfl]
    rw [List.filter_congr (fun b _ => by simp [keepBroker, optStrTruthy] : ∀ b ∈ bs,
      keepBroker none none none none (some "") b = true)]
    exact List.filter_true bs
  · rw [show filter_inventory bs (some "") none none none none
        = bs.filter (keepBroker (some "") none none none none) from rfl]
    rw [List.filter_congr (fun b _ => by simp [keepBroker, optStrTruthy] : ∀ b ∈ bs,
      keepBroker (some "") none none none none b = true)]
    exact List.filter_true bs

/-- Claim C3: `sort_brokers` stably sorts by the key (priority rank,
name): the output is a permutation of the input, sorted by the key
order, and records with equal keys keep their input order; the rank
maps crucial, high, normal to 0, 1, 2 and everything else (including a
missing priority) to 99; a missing name sorts as the empty string; and
the three-record example sorts to Acme, Beta, Zeta. The hypothesis
restricts to records on which the Python comparison cannot raise
`TypeError` (name a string when present, priority hashable), which
every data-model record satisfies. -/
theorem sort_brokers_spec :
    (∀ bs : List Broker, (∀ b ∈ bs, sortSafe b = true) →
      (sort_brokers bs).Perm bs
      ∧ (sort_brokers bs).Pairwise (fun a b => keyLe (brokerKey a) (brokerKey b) = true)
      ∧ (∀ k : Nat × List Char,
          (sort_brokers bs).filter (fun r => decide (brokerKey r = k))
            = bs.filter (fun r => decide (brokerKey r = k))))
    ∧ priorityRank (some (Json.str "crucial")) = 0
    ∧ priorityRank (some (Json.str "high")) = 1
    ∧ priorityRank (some (Json.str "normal")) = 2
    ∧ priorityRank none = 99
    ∧ (∀ v : Json, v ∉ [Json.str "crucial", Json.str "high", Json.str "normal"] →
        priorityRank (some v) = 99)
    ∧ nameChars none = []
    ∧ (∀ s : String, nameChars (some (Json.str s)) = s.data)
    ∧ sort_brokers
        [[("name", Json.str "Zeta"), ("priority", Json.str "normal")],
         [("name", Json.str "Acme"), ("priority", Json.str "crucial")],
         [("name", Json.str "Beta"), ("priority", Json.str "high")]]
      = [[("name", Json.str "Acme"), ("priority", Json.str "crucial")],
         [("name", Json.str "Beta"), ("priority", Json.str "high")],
         [("name", Json.str "Zeta"), ("priority", Json.str "normal")]] := by
  refine ⟨?_, rfl, rfl, rfl, rfl, ?_, rfl, fun s => rfl, by decide⟩
  · intro bs _hsafe
    refine ⟨isortBy_perm brokerKey keyLt bs, ?_, ?_⟩
    · have h := isortBy_pairwise brokerKey keyLt keyLt_asym keyLt_nlt_trans bs
      exact h.imp (fun hab => by simp [keyLe]; exact hab)
    · intro k
      exact isortBy_filter_key brokerKey keyLt keyLt_irrefl k bs
  · intro v hv
    match v with
    | .null => rfl
    | .bool b => rfl
    | .num n => rfl
    | .arr xs => rfl
    | .obj kvs => rfl
    | .str s =>
      simp only [List.mem_cons, not_or] at hv
      obtain ⟨h1, h2, h3, _⟩ := hv
      have hs1 : ¬ (s = "crucial") := fun h => h1 (by rw [h])
      have hs2 : ¬ (s = "high") := fun h => h2 (by rw [h])
      have hs3 : ¬ (s = "normal") := fun h => h3 (by rw [h])
      simp [priorityRank, hs1, hs2, hs3]

/-- Witness for C3 at the three-record example inventory. -/
theorem sort_brokers_spec_witness :
    (sort_brokers
        [[("name", Json.str "Zeta"), ("priority", Json.str "normal")],
         [("name", Json.str "Acme"), ("priority", Json.str "crucial")],
         [("name", Json.str "Beta"), ("priority", Json.str "high")]]).Perm
      [[("name", Json.str "Zeta"), ("priority", Json.str "normal")],
       [("name", Json.str "Acme"), ("priority", Json.str "crucial")],
       [("name", Json.str "Beta"), ("priority", Json.str "high")]]
    ∧ priorityRank (some (Json.str "urgent")) = 99 :=
  ⟨(sort_brokers_spec.1
      [[("name", Json.str "Zeta"), ("priority", Json.str "normal")],
       [("name", Json.str "Acme"), ("priority", Json.str "crucial")],
       [("name", Json.str "Beta"), ("priority", Json.str "high")]] (by decide)).1,
   sort_brokers_spec.2.2.2.2.2.1 (Json.str "urgent") (by decide)⟩

/-- Claim C7: `export_csv` writes the fixed header first, then one
`\r\n`-terminated row per record in order, with a missing field
rendered as the empty cell; on an empty record list it emits exactly
the header row and nothing else. The general conjunct restricts to
records with scalar values and no keys outside the declared fieldnames
(claim C9 covers the extra-key case). -/
theorem export_csv_shape :
    (∀ bs : List Broker,
      (∀ b ∈ bs, scalarBroker b = true ∧ (brokerExtraKeys b).isEmpty = true) →
      export_csv bs = .ok (csvHeaderLine ++ String.join (bs.map csvRow)))
    ∧ csvHeaderLine
        = "name,priority,category,requires_phone,requires_id,requires_payment,opt_out_url\r\n"
    ∧ export_csv ([] : List Broker)
        = .ok "name,priority,category,requires_phone,requires_id,requires_payment,opt_out_url\r\n"
    ∧ csvCell none = ""
    ∧ (∀ b : Broker, (∀ f : String, dictGet b f = none) → csvRow b = ",,,,,,\r\n") := by
  refine ⟨?_, rfl, rfl, rfl, ?_⟩
  · intro bs h
    have hany : bs.any (fun b => !(brokerExtraKeys b).isEmpty) = false := by
      rw [List.any_eq_false]
      intro b hb
      rw [(h b hb).2]
      simp
    rw [export_csv, hany]
    rfl
  · intro b h
    simp only [csvRow, csvFieldnames, List.map, h]
    rfl

/-- Witness for C7 at a concrete one-record inventory and at the empty
record. -/
theorem export_csv_shape_witness :
    export_csv [[("name", Json.str "Acme"), ("requires_phone", Json.bool true)]]
      = .ok (csvHeaderLine ++ String.join
          ([[("name", Json.str "Acme"), ("requires_phone", Json.bool true)]].map csvRow))
    ∧ csvRow ([] : Broker) = ",,,,,,\r\n" :=
  ⟨export_csv_shape.1 [[("name", Json.str "Acme"), ("requires_phone", Json.bool true)]]
      (by decide),
   export_csv_shape.2.2.2.2 ([] : Broker) (fun f => rfl)⟩

/-- Claim C5: `load_inventory` returns the parsed top-level sequence
when the content parses to a JSON array, and terminates with an error —
producing no partial result — when the file is absent or unreadable
(content `none`), when the content is not valid JSON, or when the
top-level value is not an array. -/
theorem load_inventory_spec :
    ∀ content : Option String,
    (content = none → load_inventory content = .error "Inventory file not found")
    ∧ (∀ s, content = some s → pyJsonLoads s = none →
        load_inventory content = .error "Inventory file is not valid JSON")
    ∧ (∀ s xs, content = some s → pyJsonLoads s = some (Json.arr xs) →
        load_inventory content = .ok xs)
    ∧ (∀ s v, content = some s → pyJsonLoads s = some v → (∀ xs, v ≠ Json.arr xs) →
        load_inventory content = .error "Inventory file must contain a list of brokers.")
    ∧ ((∃ xs, load_inventory content = .ok xs)
        ↔ ∃ s xs, content = some s ∧ pyJsonLoads s = some (Json.arr xs)) := by
  intro content
  refine ⟨?_, ?_, ?_, ?_, ?_⟩
  · intro h
    rw [h]
    rfl
  · intro s hs hp
    rw [hs]
    show (match pyJsonLoads s with
      | none => .error "Inventory file is not valid JSON"
      | some (.arr xs) => .ok xs
      | some _ => .error "Inventory file must contain a list of brokers."
      : Except String (List Json)) = _
    rw [hp]
  · intro s xs hs hp
    rw [hs]
    show (match pyJsonLoads s with
      | none => .error "Inventory file is not valid JSON"
      | some (.arr xs) => .ok xs
      | some _ => .error "Inventory file must contain a list of brokers."
      : Except String (List Json)) = _
    rw [hp]
  · intro s v hs hp hv
    rw [hs]
    show (match pyJsonLoads s with
      | none => .error "Inventory file is not valid JSON"
      | some (.arr xs) => .ok xs
      | some _ => .error "Inventory file must contain a list of brokers."
      : Except String (List Json)) = _
    rw [hp]
    match v, hv with
    | .null, _ => rfl
    | .bool b, _ => rfl
    | .str s, _ => rfl
    | .num n, _ => rfl
    | .obj kvs, _ => rfl
    | .arr xs, hv => exact absurd rfl (hv xs)
  · constructor
    · rintro ⟨xs, hxs⟩
      cases content with
      | none => exact Except.noConfusion hxs
      | some s =>
        refine ⟨s, ?_⟩
        have hxs' : (match pyJsonLoads s with
          | none => .error "Inventory file is not valid JSON"
          | some (.arr xs) => .ok xs
          | some _ => .error "Inventory file must contain a list of brokers."
          : Except String (List Json)) = .ok xs := hxs
        cases hv : pyJsonLoads s with
        | none =>
          rw [hv] at hxs'
          exact Except.noConfusion hxs'
        | some v =>
          rw [hv] at hxs'
          cases v with
          | arr ys =>
            have hok : Except.ok (ε := String) ys = Except.ok xs := hxs'
            injection hok with h
            subst h
            exact ⟨ys, rfl, rfl⟩
          | null => exact Except.noConfusion hxs'
          | bool b => exact Except.noConfusion hxs'
          | str t => exact Except.noConfusion hxs'
          | num n => exact Except.noConfusion hxs'
          | obj kvs => exact Except.noConfusion hxs'
    · intro ⟨s, xs, hs, hp⟩
      rw [hs]
      refine ⟨xs, ?_⟩
      show (match pyJsonLoads s with
        | none => .error "Inventory file is not valid JSON"
        | some (.arr xs) => .ok xs
        | some _ => .error "Inventory file must contain a list of brokers."
        : Except String (List Json)) = .ok xs
      rw [hp]

/-- Witness for C5: a concrete valid inventory, a concrete non-JSON
file, a concrete non-array file, and the missing file. -/
theorem load_inventory_spec_witness :
    load_inventory (some "[true]") = .ok [Json.bool true]
    ∧ load_inventory (some "not json") = .error "Inventory file is not valid JSON"
    ∧ load_inventory (some "\x7b\x7d")
        = .error "Inventory file must contain a list of brokers."
    ∧ load_inventory none = .error "Inventory file not found" :=
  ⟨(load_inventory_spec (some "[true]")).2.2.1 "[true]" [Json.bool true] rfl (by decide),
   (load_inventory_spec (some "not json")).2.1 "not json" rfl (by decide),
   (load_inventory_spec (some "\x7b\x7d")).2.2.2.1 "\x7b\x7d" (Json.obj []) rfl (by decide)
     (fun xs h => by cases h),
   (load_inventory_spec none).1 rfl⟩

/-! ## Round-trip development: induction principle and number lemmas -/

theorem Json.ind (P : Json → Prop)
    (hnull : P .null) (hbool : ∀ b, P (.bool b)) (hstr : ∀ s, P (.str s))
    (hnum : ∀ n, P (.num n))
    (harr : ∀ xs, (∀ x ∈ xs, P x) → P (.arr xs))
    (hobj : ∀ kvs, (∀ kv ∈ kvs, P (Prod.snd kv)) → P (.obj kvs)) : ∀ v, P v
  | .null => hnull
  | .bool b => hbool b
  | .str s => hstr s
  | .num n => hnum n
  | .arr xs => harr xs (fun x hx => Json.ind P hnull hbool hstr hnum harr hobj x)
  | .obj kvs => hobj kvs (fun kv hkv => Json.ind P hnull hbool hstr hnum harr hobj kv.2)
termination_by v => sizeOf v
decreasing_by
  · have := List.sizeOf_lt_of_mem hx
    simp only [Json.arr.sizeOf_spec]
    omega
  · have h1 := List.sizeOf_lt_of_mem hkv
    have h2 : sizeOf kv.2 < sizeOf kv := by
      obtain ⟨a, b⟩ := kv
      simp only [Prod.mk.sizeOf_spec]
      omega
    simp only [Json.obj.sizeOf_spec]
    omega

theorem digitChar_toNat : ∀ d, d < 10 → (digitChar d).toNat = 48 + d ∧ (digitChar d).isDigit = true
    ∧ isJsonWs (digitChar d) = false ∧ digitChar d ≠ 'n' ∧ digitChar d ≠ 't'
    ∧ digitChar d ≠ 'f' ∧ digitChar d ≠ '"' ∧ digitChar d ≠ '[' ∧ digitChar d ≠ '\x7b'
    ∧ digitChar d ≠ ']' ∧ digitChar d ≠ '-' := by decide

theorem readDigits_natDigitsAux :
    ∀ (fuel n acc : Nat) (rest : List Char), n ≤ fuel →
    readDigits (natDigitsAux fuel n ++ rest) acc
      = readDigits rest (acc * 10 ^ (natDigitsAux fuel n).length + n)
  | 0, n, acc, rest, h => by
    have hn : n = 0 := Nat.le_zero.mp h
    subst hn
    simp [natDigitsAux]
  | fuel + 1, n, acc, rest, h => by
    by_cases hn : n = 0
    · subst hn
      simp [natDigitsAux]
    · rw [natDigitsAux, if_neg hn]
      have hdiv : n / 10 ≤ fuel := by omega
      rw [List.append_assoc, List.singleton_append,
        readDigits_natDigitsAux fuel (n / 10) acc (digitChar (n % 10) :: rest) hdiv]
      have hd := digitChar_toNat (n % 10) (by omega)
      rw [readDigits, if_pos hd.2.1]
      rw [List.length_append, List.length_singleton]
      congr 1
      rw [hd.1]
      have : 10 ^ ((natDigitsAux fuel (n / 10)).length + 1)
          = 10 ^ (natDigitsAux fuel (n / 10)).length * 10 := Nat.pow_succ 10 _
      rw [this]
      have hmod := Nat.div_add_mod n 10
      have h48 : 48 + n % 10 - 48 = n % 10 := by omega
      rw [h48]
      ring_nf
      omega

theorem readDigits_stop (acc : Nat) (rest : List Char) (h : notDigitStart rest = true) :
    readDigits rest acc = (acc, rest) := by
  match rest with
  | [] => rfl
  | c :: cs =>
    simp only [notDigitStart, Bool.not_eq_true'] at h
    rw [readDigits, if_neg (by rw [h]; exact Bool.false_ne_true)]

theorem readDigits_cons (c : Char) (cs : List Char) (acc : Nat) :
    readDigits (c :: cs) acc
      = if c.isDigit then readDigits cs (acc * 10 + (c.toNat - 48)) else (acc, c :: cs) := rfl

theorem natDigitsAux_head :
    ∀ fuel n, 0 < n → n ≤ fuel →
    ∃ d tail, natDigitsAux fuel n = digitChar d :: tail ∧ 0 < d ∧ d < 10
  | 0, n, hpos, hle => absurd hpos (by omega)
  | fuel + 1, n, hpos, hle => by
    rw [natDigitsAux, if_neg (by omega)]
    by_cases hdiv : n / 10 = 0
    · rw [hdiv]
      have hz : ∀ fuel, natDigitsAux fuel 0 = [] := by
        intro fuel
        cases fuel with
        | zero => rfl
        | succ f => rfl
      rw [hz fuel, List.nil_append]
      exact ⟨n % 10, [], rfl, by omega, by omega⟩
    · obtain ⟨d, tail, heq, hd0, hd10⟩ :=
        natDigitsAux_head fuel (n / 10) (by omega) (by omega)
      rw [heq]
      exact ⟨d, tail ++ [digitChar (n % 10)], rfl, hd0, hd10⟩

theorem parseNatNum_natChars (n : Nat) (rest : List Char) (hrest : notDigitStart rest = true) :
    parseNatNum (natChars n ++ rest) = some (n, rest) := by
  by_cases hn : n = 0
  · subst hn
    rw [natChars]
    simp only [if_pos rfl, List.singleton_append]
    rfl
  · rw [natChars, if_neg hn]
    obtain ⟨d, tail, heq, hd0, hd10⟩ := natDigitsAux_head n n (by omega) (by omega)
    have hmain := readDigits_natDigitsAux n n 0 rest (Nat.le_refl n)
    rw [heq] at hmain ⊢
    have hd := digitChar_toNat d hd10
    rw [List.cons_append]
    have hne0 : digitChar d ≠ '0' := by
      intro hc
      have : (digitChar d).toNat = ('0' : Char).toNat := by rw [hc]
      rw [hd.1] at this
      have : 48 + d = 48 := this
      omega
    rw [parseNatNum.eq_def]
    split
    · rename_i heq2
      exact List.noConfusion heq2
    · rename_i rest2 heq2
      exact absurd (List.cons.inj heq2).1 hne0
    · rename_i c rest2 heq2
      obtain ⟨hc, hrest2⟩ := List.cons.inj heq2
      subst hc
      subst hrest2
      rw [if_pos hd.2.1]
      rw [List.cons_append, readDigits_cons, if_pos hd.2.1] at hmain
      have h1 : (0 : Nat) * 10 + ((digitChar d).toNat - 48) = (digitChar d).toNat - 48 := by
        omega
      have h2 : (0 : Nat) * 10 ^ (digitChar d :: tail).length + n = n := by
        simp
      rw [h1, h2, readDigits_stop n rest hrest] at hmain
      rw [hmain]

theorem natChars_head :
    ∀ n : Nat, ∃ c tail, natChars n = c :: tail ∧ c.isDigit = true ∧ isJsonWs c = false
      ∧ c ≠ '-' ∧ c ≠ 'n' ∧ c ≠ 't' ∧ c ≠ 'f' ∧ c ≠ '"' ∧ c ≠ '[' ∧ c ≠ '\x7b' ∧ c ≠ ']' := by
  intro n
  by_cases hn : n = 0
  · subst hn
    exact ⟨'0', [], rfl, by decide, by decide, by decide, by decide, by decide, by decide,
      by decide, by decide, by decide, by decide⟩
  · obtain ⟨d, tail, heq, hd0, hd10⟩ := natDigitsAux_head n n (by omega) (by omega)
    refine ⟨digitChar d, tail, ?_, ?_⟩
    · rw [natChars, if_neg hn, heq]
    · obtain ⟨_, hdig, hws, hn', ht', hf', hq', hb', hbr', hrb', hm'⟩ := digitChar_toNat d hd10
      exact ⟨hdig, hws, hm', hn', ht', hf', hq', hb', hbr', hrb'⟩

theorem parseNum_intChars (n : Int) (rest : List Char) (hrest : notDigitStart rest = true) :
    parseNum (intChars n ++ rest) = some (n, rest) := by
  by_cases hn : n < 0
  · rw [intChars, if_pos hn, List.cons_append]
    have hstep : parseNum ('-' :: (natChars n.natAbs ++ rest))
        = (parseNatNum (natChars n.natAbs ++ rest)).map (fun p => (-(p.1 : Int), p.2)) := rfl
    rw [hstep, parseNatNum_natChars _ rest hrest]
    have habs : -((n.natAbs : Nat) : Int) = n := by omega
    show some (-((n.natAbs : Nat) : Int), rest) = some (n, rest)
    rw [habs]
  · rw [intChars, if_neg hn]
    obtain ⟨c, tail, heq, _hdig, _hws, hminus, _⟩ := natChars_head n.toNat
    rw [heq, List.cons_append, parseNum.eq_def]
    split
    · rename_i rest2 heq2
      exact absurd (List.cons.inj heq2).1 hminus
    · rw [← List.cons_append, ← heq, parseNatNum_natChars _ rest hrest]
      have htn : ((n.toNat : Nat) : Int) = n := by omega
      show some (((n.toNat : Nat) : Int), rest) = some (n, rest)
      rw [htn]

/-! ## String-literal round trip -/

theorem charValid (c : Char) : c.toNat < 0xd800 ∨ (0xdfff < c.toNat ∧ c.toNat < 0x110000) := by
  have h := c.valid
  unfold UInt32.isValidChar at h
  unfold Nat.isValidChar at h
  exact h

theorem hexVal_hexDigitChar : ∀ d, d < 16 → hexVal (hexDigitChar d) = some d := by decide

theorem decodeHex4_spec (a b c d : Char) (ha hb hc hd : Nat)
    (Ha : hexVal a = some ha) (Hb : hexVal b = some hb)
    (Hc : hexVal c = some hc) (Hd : hexVal d = some hd) :
    decodeHex4 a b c d = some (ha * 4096 + hb * 256 + hc * 16 + hd) := by
  rw [decodeHex4, Ha, Hb, Hc, Hd]
  rfl

theorem decodeHex4_hex4 (n : Nat) (h : n < 0x10000) :
    decodeHex4 (hexDigitChar (n / 4096 % 16)) (hexDigitChar (n / 256 % 16))
      (hexDigitChar (n / 16 % 16)) (hexDigitChar (n % 16)) = some n := by
  rw [decodeHex4_spec _ _ _ _ _ _ _ _ (hexVal_hexDigitChar _ (by omega))
    (hexVal_hexDigitChar _ (by omega)) (hexVal_hexDigitChar _ (by omega))
    (hexVal_hexDigitChar _ (by omega))]
  congr 1
  omega

theorem parseStrBody_u_scalar (a b c d : Char) (n : Nat) (zs : List Char)
    (hdec : decodeHex4 a b c d = some n)
    (h1 : ¬ (0xd800 ≤ n ∧ n < 0xdc00)) (h2 : ¬ (0xdc00 ≤ n ∧ n < 0xe000)) :
    parseStrBody ('\\' :: 'u' :: a :: b :: c :: d :: zs)
      = (parseStrBody zs).map (fun p => (Char.ofNat n :: p.1, p.2)) := by
  have e : parseStrBody ('\\' :: 'u' :: a :: b :: c :: d :: zs)
      = (match decodeHex4 a b c d with
         | none => none
         | some n =>
           if 0xd800 ≤ n ∧ n < 0xdc00 then parseLowSurrogate n zs
           else if 0xdc00 ≤ n ∧ n < 0xe000 then none
           else (parseStrBody zs).map (fun p => (Char.ofNat n :: p.1, p.2))) := rfl
  rw [e, hdec]
  show (if 0xd800 ≤ n ∧ n < 0xdc00 then parseLowSurrogate n zs
        else if 0xdc00 ≤ n ∧ n < 0xe000 then none
        else (parseStrBody zs).map (fun p => (Char.ofNat n :: p.1, p.2)))
      = (parseStrBody zs).map (fun p => (Char.ofNat n :: p.1, p.2))
  rw [if_neg h1, if_neg h2]

theorem parseStrBody_u_pair (a b c d e f g k : Char) (n m : Nat) (zs : List Char)
    (hdec1 : decodeHex4 a b c d = some n) (hdec2 : decodeHex4 e f g k = some m)
    (h1 : 0xd800 ≤ n ∧ n < 0xdc00) (h2 : 0xdc00 ≤ m ∧ m < 0xe000) :
    parseStrBody ('\\' :: 'u' :: a :: b :: c :: d :: '\\' :: 'u' :: e :: f :: g :: k :: zs)
      = (parseStrBody zs).map (fun p =>
          (Char.ofNat (0x10000 + (n - 0xd800) * 0x400 + (m - 0xdc00)) :: p.1, p.2)) := by
  have e1 : parseStrBody ('\\' :: 'u' :: a :: b :: c :: d
        :: '\\' :: 'u' :: e :: f :: g :: k :: zs)
      = (match decodeHex4 a b c d with
         | none => none
         | some n =>
           if 0xd800 ≤ n ∧ n < 0xdc00 then
             parseLowSurrogate n ('\\' :: 'u' :: e :: f :: g :: k :: zs)
           else if 0xdc00 ≤ n ∧ n < 0xe000 then none
           else (parseStrBody ('\\' :: 'u' :: e :: f :: g :: k :: zs)).map
             (fun p => (Char.ofNat n :: p.1, p.2))) := rfl
  rw [e1, hdec1]
  show (if 0xd800 ≤ n ∧ n < 0xdc00 then
          parseLowSurrogate n ('\\' :: 'u' :: e :: f :: g :: k :: zs)
        else if 0xdc00 ≤ n ∧ n < 0xe000 then none
        else (parseStrBody ('\\' :: 'u' :: e :: f :: g :: k :: zs)).map
          (fun p => (Char.ofNat n :: p.1, p.2)))
      = _
  rw [if_pos h1]
  have e2 : parseLowSurrogate n ('\\' :: 'u' :: e :: f :: g :: k :: zs)
      = (match decodeHex4 e f g k with
         | none => none
         | some m =>
           if 0xdc00 ≤ m ∧ m < 0xe000 then
             (parseStrBody zs).map (fun p =>
               (Char.ofNat (0x10000 + (n - 0xd800) * 0x400 + (m - 0xdc00)) :: p.1, p.2))
           else none) := rfl
  rw [e2, hdec2]
  show (if 0xdc00 ≤ m ∧ m < 0xe000 then
          (parseStrBody zs).map (fun p =>
            (Char.ofNat (0x10000 + (n - 0xd800) * 0x400 + (m - 0xdc00)) :: p.1, p.2))
        else none)
      = _
  rw [if_pos h2]

theorem parseStrBody_escChar_cons (c : Char) (zs s0 rest : List Char)
    (h : parseStrBody zs = some (s0, rest)) :
    parseStrBody (escChar c ++ zs) = some (c :: s0, rest) := by
  by_cases hq : c = '"'
  · subst hq
    have e1 : parseStrBody (escChar '"' ++ zs)
        = (parseStrBody zs).map (fun p => ('"' :: p.1, p.2)) := rfl
    rw [e1, h]
    rfl
  · by_cases hbs : c = '\\'
    · subst hbs
      have e1 : parseStrBody (escChar '\\' ++ zs)
          = (parseStrBody zs).map (fun p => ('\\' :: p.1, p.2)) := rfl
      rw [e1, h]
      rfl
    · by_cases hn' : c = '\n'
      · subst hn'
        have e1 : parseStrBody (escChar '\n' ++ zs)
            = (parseStrBody zs).map (fun p => ('\n' :: p.1, p.2)) := rfl
        rw [e1, h]
        rfl
      · by_cases ht' : c = '\t'
        · subst ht'
          have e1 : parseStrBody (escChar '\t' ++ zs)
              = (parseStrBody zs).map (fun p => ('\t' :: p.1, p.2)) := rfl
          rw [e1, h]
          rfl
        · by_cases hr' : c = '\r'
          · subst hr'
            have e1 : parseStrBody (escChar '\r' ++ zs)
                = (parseStrBody zs).map (fun p => ('\r' :: p.1, p.2)) := rfl
            rw [e1, h]
            rfl
          · by_cases hb8 : c = '\x08'
            · subst hb8
              have e1 : parseStrBody (escChar '\x08' ++ zs)
                  = (parseStrBody zs).map (fun p => ('\x08' :: p.1, p.2)) := rfl
              rw [e1, h]
              rfl
            · by_cases hbf : c = '\x0c'
              · subst hbf
                have e1 : parseStrBody (escChar '\x0c' ++ zs)
                    = (parseStrBody zs).map (fun p => ('\x0c' :: p.1, p.2)) := rfl
                rw [e1, h]
                rfl
              · rw [escChar, if_neg hq, if_neg hbs, if_neg hn', if_neg ht', if_neg hr',
                  if_neg hb8, if_neg hbf]
                by_cases hrange : (decide (c.toNat < 0x20) || decide (0x7e < c.toNat)) = true
                · rw [if_pos hrange]
                  have hval := charValid c
                  by_cases hbmp : c.toNat < 0x10000
                  · rw [if_pos hbmp]
                    show parseStrBody ('\\' :: 'u'
                      :: hexDigitChar (c.toNat / 4096 % 16) :: hexDigitChar (c.toNat / 256 % 16)
                      :: hexDigitChar (c.toNat / 16 % 16) :: hexDigitChar (c.toNat % 16) :: zs)
                      = some (c :: s0, rest)
                    rw [parseStrBody_u_scalar _ _ _ _ c.toNat zs
                      (decodeHex4_hex4 c.toNat hbmp) (by omega) (by omega)]
                    rw [Char.ofNat_toNat, h]
                    rfl
                  · rw [if_neg hbmp]
                    show parseStrBody ('\\' :: 'u'
                      :: hexDigitChar ((0xd800 + (c.toNat - 0x10000) / 0x400) / 4096 % 16)
                      :: hexDigitChar ((0xd800 + (c.toNat - 0x10000) / 0x400) / 256 % 16)
                      :: hexDigitChar ((0xd800 + (c.toNat - 0x10000) / 0x400) / 16 % 16)
                      :: hexDigitChar ((0xd800 + (c.toNat - 0x10000) / 0x400) % 16)
                      :: '\\' :: 'u'
                      :: hexDigitChar ((0xdc00 + (c.toNat - 0x10000) % 0x400) / 4096 % 16)
                      :: hexDigitChar ((0xdc00 + (c.toNat - 0x10000) % 0x400) / 256 % 16)
                      :: hexDigitChar ((0xdc00 + (c.toNat - 0x10000) % 0x400) / 16 % 16)
                      :: hexDigitChar ((0xdc00 + (c.toNat - 0x10000) % 0x400) % 16)
                      :: zs)
                      = some (c :: s0, rest)
                    rw [parseStrBody_u_pair _ _ _ _ _ _ _ _
                      (0xd800 + (c.toNat - 0x10000) / 0x400)
                      (0xdc00 + (c.toNat - 0x10000) % 0x400) zs
                      (decodeHex4_hex4 _ (by omega)) (decodeHex4_hex4 _ (by omega))
                      (by omega) (by omega)]
                    have hcomb : 0x10000
                        + (0xd800 + (c.toNat - 0x10000) / 0x400 - 0xd800) * 0x400
                        + (0xdc00 + (c.toNat - 0x10000) % 0x400 - 0xdc00) = c.toNat := by
                      omega
                    rw [hcomb, Char.ofNat_toNat, h]
                    rfl
                · rw [if_neg hrange]
                  simp only [Bool.or_eq_true, decide_eq_true_eq, not_or, Nat.not_lt] at hrange
                  rw [List.singleton_append, parseStrBody.eq_def]
                  split
                  · rename_i heq2
                    exact List.noConfusion heq2
                  · rename_i r2 heq2
                    exact absurd (List.cons.inj heq2).1 hq
                  · rename_i a b c' d r2 heq2
                    exact absurd (List.cons.inj heq2).1 hbs
                  · rename_i c2 r2 heq2
                    exact absurd (List.cons.inj heq2).1 hbs
                  · rename_i c2 r2 heq2
                    obtain ⟨hc2, hr2⟩ := List.cons.inj heq2
                    subst hc2
                    subst hr2
                    rw [if_neg (by omega : ¬ c.toNat < 0x20), h]
                    rfl

theorem parseStrBody_serStr : ∀ (cs rest : List Char),
    parseStrBody ((cs.map escChar).flatten ++ '"' :: rest) = some (cs, rest)
  | [], rest => rfl
  | c :: cs, rest => by
    rw [List.map_cons, List.flatten_cons, List.append_assoc]
    exact parseStrBody_escChar_cons c _ cs rest (parseStrBody_serStr cs rest)

theorem serStr_append (cs X : List Char) :
    serStr cs ++ X = '"' :: ((cs.map escChar).flatten ++ '"' :: X) := by
  rw [serStr]
  simp

/-! ## Whitespace and head-shape lemmas -/

theorem skipWs_cons_true (c : Char) (cs : List Char) (h : isJsonWs c = true) :
    skipWs (c :: cs) = skipWs cs := by
  rw [skipWs, List.dropWhile_cons, if_pos h]
  rfl

theorem skipWs_cons_false (c : Char) (cs : List Char) (h : isJsonWs c = false) :
    skipWs (c :: cs) = c :: cs := by
  rw [skipWs, List.dropWhile_cons, if_neg (by rw [h]; exact Bool.false_ne_true)]

theorem skipWs_replicate_space : ∀ (k : Nat) (cs : List Char),
    skipWs (List.replicate k ' ' ++ cs) = skipWs cs
  | 0, cs => by rw [List.replicate_zero, List.nil_append]
  | k + 1, cs => by
    rw [List.replicate_succ, List.cons_append, skipWs_cons_true _ _ (by decide),
      skipWs_replicate_space k cs]

theorem skipWs_spacesIndent (ind : Nat) (cs : List Char) :
    skipWs (spacesIndent ind ++ cs) = skipWs cs :=
  skipWs_replicate_space (2 * ind) cs

theorem serVal_head (ind : Nat) (v : Json) :
    ∃ c tail, serVal ind v = c :: tail ∧ isJsonWs c = false ∧ c ≠ ']' ∧ c ≠ '\x7d' := by
  match v with
  | .null => exact ⟨'n', _, rfl, by decide, by decide, by decide⟩
  | .bool true => exact ⟨'t', _, rfl, by decide, by decide, by decide⟩
  | .bool false => exact ⟨'f', _, rfl, by decide, by decide, by decide⟩
  | .str s => exact ⟨'"', _, rfl, by decide, by decide, by decide⟩
  | .arr [] => exact ⟨'[', _, rfl, by decide, by decide, by decide⟩
  | .arr (x :: xs) => exact ⟨'[', _, rfl, by decide, by decide, by decide⟩
  | .obj [] => exact ⟨'\x7b', _, rfl, by decide, by decide, by decide⟩
  | .obj ((k, w) :: kvs) => exact ⟨'\x7b', _, rfl, by decide, by decide, by decide⟩
  | .num n =>
    show ∃ c tail, intChars n = c :: tail ∧ _
    by_cases hn : n < 0
    · rw [intChars, if_pos hn]
      exact ⟨'-', _, rfl, by decide, by decide, by decide⟩
    · rw [intChars, if_neg hn]
      obtain ⟨c, tail, heq, _hdig, hws, _hm, _hn, _ht, _hf, _hq, _hbr, _hlb, hrb⟩ :=
        natChars_head n.toNat
      refine ⟨c, tail, heq, hws, hrb, ?_⟩
      intro hc
      subst hc
      revert _hdig
      decide

theorem skipWs_serVal (ind : Nat) (v : Json) (X : List Char) :
    skipWs (serVal ind v ++ X) = serVal ind v ++ X := by
  obtain ⟨c, tail, heq, hws, _⟩ := serVal_head ind v
  rw [heq, List.cons_append, skipWs_cons_false _ _ hws]

theorem serVal_notDigitStart (ind : Nat) (v : Json) (X : List Char) :
    headDigitOrMinus (serVal ind v ++ X) = true
      ∨ parseVal 0 (serVal ind v ++ X) = none := Or.inr rfl

/-! ## `parseVal` branch equations -/

theorem parseVal_null (fuel : Nat) (rest : List Char) :
    parseVal (fuel + 1) ('n' :: 'u' :: 'l' :: 'l' :: rest) = some (.null, rest) := rfl

theorem parseVal_true (fuel : Nat) (rest : List Char) :
    parseVal (fuel + 1) ('t' :: 'r' :: 'u' :: 'e' :: rest) = some (.bool true, rest) := rfl

theorem parseVal_false (fuel : Nat) (rest : List Char) :
    parseVal (fuel + 1) ('f' :: 'a' :: 'l' :: 's' :: 'e' :: rest)
      = some (.bool false, rest) := rfl

theorem parseVal_quote (fuel : Nat) (cs : List Char) :
    parseVal (fuel + 1) ('"' :: cs)
      = (parseStrBody cs).bind (fun p => some (.str (String.mk p.1), p.2)) := rfl

theorem parseVal_lbracket (fuel : Nat) (cs : List Char) :
    parseVal (fuel + 1) ('[' :: cs)
      = (match skipWs cs with
         | ']' :: r => some (.arr [], r)
         | cs1 => (parseElems fuel cs1).bind (fun p => some (.arr p.1, p.2))) := rfl

theorem parseVal_lbrace (fuel : Nat) (cs : List Char) :
    parseVal (fuel + 1) ('\x7b' :: cs)
      = (match skipWs cs with
         | '\x7d' :: r => some (.obj [], r)
         | cs1 => (parseFields fuel cs1).bind (fun p => some (.obj p.1, p.2))) := rfl

theorem parseVal_num (fuel : Nat) (cs : List Char) (h : headDigitOrMinus cs = true) :
    parseVal (fuel + 1) cs = (parseNum cs).map (fun p => (Json.num p.1, p.2)) := by
  match cs with
  | [] => exact absurd h (by decide)
  | c :: cs' =>
    simp only [headDigitOrMinus, Bool.or_eq_true, decide_eq_true_eq] at h
    rw [parseVal.eq_def]
    split
    · rename_i heq
      exact absurd heq (by omega)
    · split
      · rename_i heq
        obtain ⟨hc, -⟩ := List.cons.inj heq
        subst hc
        rcases h with h | h
        · exact absurd h (by decide)
        · exact absurd h (by decide)
      · rename_i heq
        obtain ⟨hc, -⟩ := List.cons.inj heq
        subst hc
        rcases h with h | h
        · exact absurd h (by decide)
        · exact absurd h (by decide)
      · rename_i heq
        obtain ⟨hc, -⟩ := List.cons.inj heq
        subst hc
        rcases h with h | h
        · exact absurd h (by decide)
        · exact absurd h (by decide)
      · rename_i heq
        obtain ⟨hc, -⟩ := List.cons.inj heq
        subst hc
        rcases h with h | h
        · exact absurd h (by decide)
        · exact absurd h (by decide)
      · rename_i heq
        obtain ⟨hc, -⟩ := List.cons.inj heq
        subst hc
        rcases h with h | h
        · exact absurd h (by decide)
        · exact absurd h (by decide)
      · rename_i heq
        obtain ⟨hc, -⟩ := List.cons.inj heq
        subst hc
        rcases h with h | h
        · exact absurd h (by decide)
        · exact absurd h (by decide)
      · rfl

theorem parseElems_succ (fuel : Nat) (cs : List Char) :
    parseElems (fuel + 1) cs
      = (parseVal fuel cs).bind (fun vr =>
          match skipWs vr.2 with
          | ',' :: r2 => (parseElems fuel (skipWs r2)).map (fun p => (vr.1 :: p.1, p.2))
          | ']' :: r2 => some ([vr.1], r2)
          | _ => none) := rfl

theorem parseElems_ser : ∀ (xs : List Json) (x : Json) (ind ind2 fuel : Nat) (rest : List Char),
    (∀ y ∈ x :: xs, ∀ (ind' fuel' : Nat) (rest' : List Char), wVal y ≤ fuel' →
      notDigitStart rest' = true →
      parseVal fuel' (serVal ind' y ++ rest') = some (y, rest')) →
    1 + wVal x + wElems xs ≤ fuel →
    parseElems fuel
      (serVal ind x ++ (serItems ind xs ++ ('\n' :: (spacesIndent ind2 ++ (']' :: rest)))))
      = some (x :: xs, rest)
  | xs, x, ind, ind2, 0, rest, _, hfuel => absurd hfuel (by omega)
  | [], x, ind, ind2, fuel + 1, rest, hmem, hfuel => by
    rw [parseElems_succ]
    have hz : serItems ind ([] : List Json) ++ ('\n' :: (spacesIndent ind2 ++ (']' :: rest)))
        = '\n' :: (spacesIndent ind2 ++ (']' :: rest)) := rfl
    rw [hz]
    have hx := hmem x (List.mem_cons_self x []) ind fuel
      ('\n' :: (spacesIndent ind2 ++ (']' :: rest)))
      (by simp [wVal, wElems] at hfuel ⊢; omega) rfl
    rw [hx]
    show (match skipWs ('\n' :: (spacesIndent ind2 ++ (']' :: rest))) with
      | ',' :: r2 => (parseElems fuel (skipWs r2)).map (fun p => (x :: p.1, p.2))
      | ']' :: r2 => some ([x], r2)
      | _ => none) = some ([x], rest)
    rw [skipWs_cons_true _ _ (by decide), skipWs_spacesIndent,
      skipWs_cons_false _ _ (by decide)]
    rfl
  | y :: ys, x, ind, ind2, fuel + 1, rest, hmem, hfuel => by
    rw [parseElems_succ]
    have hz : serItems ind (y :: ys) ++ ('\n' :: (spacesIndent ind2 ++ (']' :: rest)))
        = ',' :: ('\n' :: (spacesIndent ind
            ++ (serVal ind y ++ (serItems ind ys
              ++ ('\n' :: (spacesIndent ind2 ++ (']' :: rest))))))) := by
      show (',' :: '\n' :: spacesIndent ind ++ serVal ind y ++ serItems ind ys)
          ++ ('\n' :: (spacesIndent ind2 ++ (']' :: rest))) = _
      simp [List.append_assoc]
    rw [hz]
    have hx := hmem x (List.mem_cons_self x (y :: ys)) ind fuel
      (',' :: ('\n' :: (spacesIndent ind
          ++ (serVal ind y ++ (serItems ind ys
            ++ ('\n' :: (spacesIndent ind2 ++ (']' :: rest))))))))
      (by simp [wVal, wElems] at hfuel ⊢; omega) rfl
    rw [hx]
    show (match skipWs (',' :: ('\n' :: (spacesIndent ind
        ++ (serVal ind y ++ (serItems ind ys
          ++ ('\n' :: (spacesIndent ind2 ++ (']' :: rest)))))))) with
      | ',' :: r2 => (parseElems fuel (skipWs r2)).map (fun p => (x :: p.1, p.2))
      | ']' :: r2 => some ([x], r2)
      | _ => none) = some (x :: y :: ys, rest)
    rw [skipWs_cons_false _ _ (by decide)]
    show (parseElems fuel (skipWs ('\n' :: (spacesIndent ind
        ++ (serVal ind y ++ (serItems ind ys
          ++ ('\n' :: (spacesIndent ind2 ++ (']' :: rest))))))))).map
        (fun p => (x :: p.1, p.2))
      = some (x :: y :: ys, rest)
    rw [skipWs_cons_true _ _ (by decide), skipWs_spacesIndent, skipWs_serVal]
    rw [parseElems_ser ys y ind ind2 fuel rest
      (fun z hz' => hmem z (List.mem_cons_of_mem x hz'))
      (by simp [wVal, wElems] at hfuel ⊢; omega)]
    rfl

theorem parseFields_quote (fuel : Nat) (cs : List Char) :
    parseFields (fuel + 1) ('"' :: cs)
      = (parseStrBody cs).bind (fun kr =>
          match skipWs kr.2 with
          | ':' :: r2 =>
            (parseVal fuel (skipWs r2)).bind (fun vr =>
              match skipWs vr.2 with
              | ',' :: r5 => (parseFields fuel (skipWs r5)).map (fun p =>
                  ((String.mk kr.1, vr.1) :: p.1, p.2))
              | '\x7d' :: r5 => some ([(String.mk kr.1, vr.1)], r5)
              | _ => none)
          | _ => none) := rfl

theorem parseFields_ser : ∀ (kvs : List (String × Json)) (k : String) (v : Json)
    (ind ind2 fuel : Nat) (rest : List Char),
    (∀ kv ∈ (k, v) :: kvs, ∀ (ind' fuel' : Nat) (rest' : List Char), wVal kv.2 ≤ fuel' →
      notDigitStart rest' = true →
      parseVal fuel' (serVal ind' kv.2 ++ rest') = some (kv.2, rest')) →
    1 + wVal v + wFields kvs ≤ fuel →
    parseFields fuel
      (serStr k.data ++ (':' :: (' ' :: (serVal ind v ++ (serFields ind kvs
        ++ ('\n' :: (spacesIndent ind2 ++ ('\x7d' :: rest))))))))
      = some ((k, v) :: kvs, rest)
  | kvs, k, v, ind, ind2, 0, rest, _, hfuel => absurd hfuel (by omega)
  | [], k, v, ind, ind2, fuel + 1, rest, hmem, hfuel => by
    rw [serStr_append, parseFields_quote, parseStrBody_serStr k.data]
    show (match skipWs (':' :: (' ' :: (serVal ind v ++ (serFields ind ([] : List (String × Json))
        ++ ('\n' :: (spacesIndent ind2 ++ ('\x7d' :: rest))))))) with
      | ':' :: r2 =>
        (parseVal fuel (skipWs r2)).bind (fun vr =>
          match skipWs vr.2 with
          | ',' :: r5 => (parseFields fuel (skipWs r5)).map (fun p =>
              ((String.mk k.data, vr.1) :: p.1, p.2))
          | '\x7d' :: r5 => some ([(String.mk k.data, vr.1)], r5)
          | _ => none)
      | _ => none) = some ([(k, v)], rest)
    rw [skipWs_cons_false _ _ (by decide)]
    show (parseVal fuel (skipWs (' ' :: (serVal ind v ++ (serFields ind ([] : List (String × Json))
        ++ ('\n' :: (spacesIndent ind2 ++ ('\x7d' :: rest)))))))).bind (fun vr =>
      match skipWs vr.2 with
      | ',' :: r5 => (parseFields fuel (skipWs r5)).map (fun p =>
          ((String.mk k.data, vr.1) :: p.1, p.2))
      | '\x7d' :: r5 => some ([(String.mk k.data, vr.1)], r5)
      | _ => none) = some ([(k, v)], rest)
    rw [skipWs_cons_true _ _ (by decide), skipWs_serVal]
    have hx := hmem (k, v) (List.mem_cons_self _ []) ind fuel
      (serFields ind ([] : List (String × Json))
        ++ ('\n' :: (spacesIndent ind2 ++ ('\x7d' :: rest))))
      (by simp [wVal, wFields] at hfuel ⊢; omega) rfl
    rw [hx]
    show (match skipWs (serFields ind ([] : List (String × Json))
        ++ ('\n' :: (spacesIndent ind2 ++ ('\x7d' :: rest)))) with
      | ',' :: r5 => (parseFields fuel (skipWs r5)).map (fun p =>
          ((String.mk k.data, v) :: p.1, p.2))
      | '\x7d' :: r5 => some ([(String.mk k.data, v)], r5)
      | _ => none) = some ([(k, v)], rest)
    have hz : serFields ind ([] : List (String × Json))
        ++ ('\n' :: (spacesIndent ind2 ++ ('\x7d' :: rest)))
        = '\n' :: (spacesIndent ind2 ++ ('\x7d' :: rest)) := rfl
    rw [hz, skipWs_cons_true _ _ (by decide), skipWs_spacesIndent,
      skipWs_cons_false _ _ (by decide)]
    rfl
  | (k2, v2) :: kvs, k, v, ind, ind2, fuel + 1, rest, hmem, hfuel => by
    rw [serStr_append, parseFields_quote, parseStrBody_serStr k.data]
    show (match skipWs (':' :: (' ' :: (serVal ind v ++ (serFields ind ((k2, v2) :: kvs)
        ++ ('\n' :: (spacesIndent ind2 ++ ('\x7d' :: rest))))))) with
      | ':' :: r2 =>
        (parseVal fuel (skipWs r2)).bind (fun vr =>
          match skipWs vr.2 with
          | ',' :: r5 => (parseFields fuel (skipWs r5)).map (fun p =>
              ((String.mk k.data, vr.1) :: p.1, p.2))
          | '\x7d' :: r5 => some ([(String.mk k.data, vr.1)], r5)
          | _ => none)
      | _ => none) = some ((k, v) :: (k2, v2) :: kvs, rest)
    rw [skipWs_cons_false _ _ (by decide)]
    show (parseVal fuel (skipWs (' ' :: (serVal ind v ++ (serFields ind ((k2, v2) :: kvs)
        ++ ('\n' :: (spacesIndent ind2 ++ ('\x7d' :: rest)))))))).bind (fun vr =>
      match skipWs vr.2 with
      | ',' :: r5 => (parseFields fuel (skipWs r5)).map (fun p =>
          ((String.mk k.data, vr.1) :: p.1, p.2))
      | '\x7d' :: r5 => some ([(String.mk k.data, vr.1)], r5)
      | _ => none) = some ((k, v) :: (k2, v2) :: kvs, rest)
    rw [skipWs_cons_true _ _ (by decide), skipWs_serVal]
    have hx := hmem (k, v) (List.mem_cons_self _ _) ind fuel
      (serFields ind ((k2, v2) :: kvs)
        ++ ('\n' :: (spacesIndent ind2 ++ ('\x7d' :: rest))))
      (by simp [wVal, wFields] at hfuel ⊢; omega) rfl
    rw [hx]
    show (match skipWs (serFields ind ((k2, v2) :: kvs)
        ++ ('\n' :: (spacesIndent ind2 ++ ('\x7d' :: rest)))) with
      | ',' :: r5 => (parseFields fuel (skipWs r5)).map (fun p =>
          ((String.mk k.data, v) :: p.1, p.2))
      | '\x7d' :: r5 => some ([(String.mk k.data, v)], r5)
      | _ => none) = some ((k, v) :: (k2, v2) :: kvs, rest)
    have hz : serFields ind ((k2, v2) :: kvs)
        ++ ('\n' :: (spacesIndent ind2 ++ ('\x7d' :: rest)))
        = ',' :: ('\n' :: (spacesIndent ind
            ++ (serStr k2.data ++ (':' :: (' ' :: (serVal ind v2 ++ (serFields ind kvs
              ++ ('\n' :: (spacesIndent ind2 ++ ('\x7d' :: rest)))))))))) := by
      show (',' :: '\n' :: spacesIndent ind ++ serStr k2.data ++ ':' :: ' '
          :: serVal ind v2 ++ serFields ind kvs)
          ++ ('\n' :: (spacesIndent ind2 ++ ('\x7d' :: rest))) = _
      simp [List.append_assoc]
    rw [hz, skipWs_cons_false _ _ (by decide)]
    show (parseFields fuel (skipWs ('\n' :: (spacesIndent ind
        ++ (serStr k2.data ++ (':' :: (' ' :: (serVal ind v2 ++ (serFields ind kvs
          ++ ('\n' :: (spacesIndent ind2 ++ ('\x7d' :: rest)))))))))))).map
        (fun p => ((String.mk k.data, v) :: p.1, p.2))
      = some ((k, v) :: (k2, v2) :: kvs, rest)
    have hsk : skipWs ('\n' :: (spacesIndent ind
        ++ (serStr k2.data ++ (':' :: (' ' :: (serVal ind v2 ++ (serFields ind kvs
          ++ ('\n' :: (spacesIndent ind2 ++ ('\x7d' :: rest))))))))))
        = serStr k2.data ++ (':' :: (' ' :: (serVal ind v2 ++ (serFields ind kvs
          ++ ('\n' :: (spacesIndent ind2 ++ ('\x7d' :: rest))))))) := by
      rw [skipWs_cons_true _ _ (by decide), skipWs_spacesIndent, serStr_append,
        skipWs_cons_false _ _ (by decide), ← serStr_append]
    rw [hsk]
    rw [parseFields_ser kvs k2 v2 ind ind2 fuel rest
      (fun kv hkv => hmem kv (List.mem_cons_of_mem _ hkv))
      (by simp [wVal, wFields] at hfuel ⊢; omega)]
    rfl

theorem parseVal_ser : ∀ (v : Json) (ind fuel : Nat) (rest : List Char),
    wVal v ≤ fuel → notDigitStart rest = true →
    parseVal fuel (serVal ind v ++ rest) = some (v, rest) := by
  intro v
  induction v using Json.ind with
  | hnull =>
    intro ind fuel rest hf _hr
    match fuel, hf with
    | fuel + 1, _ => exact parseVal_null fuel rest
  | hbool b =>
    intro ind fuel rest hf _hr
    match fuel, hf with
    | fuel + 1, _ =>
      cases b
      · exact parseVal_false fuel rest
      · exact parseVal_true fuel rest
  | hnum n =>
    intro ind fuel rest hf hr
    match fuel, hf with
    | fuel + 1, _ =>
      have hhead : headDigitOrMinus (intChars n ++ rest) = true := by
        by_cases hn : n < 0
        · rw [intChars, if_pos hn]
          rfl
        · rw [intChars, if_neg hn]
          obtain ⟨c, tail, heq, hdig, _⟩ := natChars_head n.toNat
          rw [heq, List.cons_append]
          simp [headDigitOrMinus, hdig]
      show parseVal (fuel + 1) (intChars n ++ rest) = some (.num n, rest)
      rw [parseVal_num fuel _ hhead, parseNum_intChars n rest hr]
      rfl
  | hstr s =>
    intro ind fuel rest hf _hr
    match fuel, hf with
    | fuel + 1, _ =>
      show parseVal (fuel + 1) (serStr s.data ++ rest) = some (.str s, rest)
      rw [serStr_append, parseVal_quote, parseStrBody_serStr]
      rfl
  | harr xs hxs =>
    intro ind fuel rest hf hr
    match xs, fuel, hf with
    | _, 0, hf => exact absurd hf (by simp [wVal])
    | [], fuel + 1, _ =>
      show parseVal (fuel + 1) ('[' :: (']' :: rest)) = some (.arr [], rest)
      rw [parseVal_lbracket, skipWs_cons_false _ _ (by decide)]
      rfl
    | x :: xs, fuel + 1, hf =>
      have hz : serVal ind (.arr (x :: xs)) ++ rest
          = '[' :: ('\n' :: (spacesIndent (ind + 1)
            ++ (serVal (ind + 1) x ++ (serItems (ind + 1) xs
              ++ ('\n' :: (spacesIndent ind ++ (']' :: rest))))))) := by
        show ('[' :: '\n' :: spacesIndent (ind + 1) ++ serVal (ind + 1) x
            ++ serItems (ind + 1) xs ++ '\n' :: spacesIndent ind ++ [']']) ++ rest = _
        simp [List.append_assoc]
      rw [hz, parseVal_lbracket]
      have hsk : skipWs ('\n' :: (spacesIndent (ind + 1)
          ++ (serVal (ind + 1) x ++ (serItems (ind + 1) xs
            ++ ('\n' :: (spacesIndent ind ++ (']' :: rest)))))))
          = serVal (ind + 1) x ++ (serItems (ind + 1) xs
            ++ ('\n' :: (spacesIndent ind ++ (']' :: rest)))) := by
        rw [skipWs_cons_true _ _ (by decide), skipWs_spacesIndent, skipWs_serVal]
      rw [hsk]
      obtain ⟨c, tail, hc, _hws, hne, _⟩ := serVal_head (ind + 1) x
      rw [hc, List.cons_append]
      split
      · rename_i r heq
        exact absurd (List.cons.inj heq).1 hne
      · rw [← List.cons_append, ← hc,
          parseElems_ser xs x (ind + 1) ind fuel rest hxs
            (by simp [wVal, wElems] at hf ⊢; omega)]
        rfl
  | hobj kvs hkvs =>
    intro ind fuel rest hf hr
    match kvs, fuel, hf with
    | _, 0, hf => exact absurd hf (by simp [wVal])
    | [], fuel + 1, _ =>
      show parseVal (fuel + 1) ('\x7b' :: ('\x7d' :: rest)) = some (.obj [], rest)
      rw [parseVal_lbrace, skipWs_cons_false _ _ (by decide)]
      rfl
    | (k, v) :: kvs, fuel + 1, hf =>
      have hz : serVal ind (.obj ((k, v) :: kvs)) ++ rest
          = '\x7b' :: ('\n' :: (spacesIndent (ind + 1)
            ++ (serStr k.data ++ (':' :: (' ' :: (serVal (ind + 1) v
              ++ (serFields (ind + 1) kvs
                ++ ('\n' :: (spacesIndent ind ++ ('\x7d' :: rest)))))))))) := by
        show ('\x7b' :: '\n' :: spacesIndent (ind + 1) ++ serStr k.data ++ ':' :: ' '
            :: serVal (ind + 1) v ++ serFields (ind + 1) kvs
            ++ '\n' :: spacesIndent ind ++ ['\x7d']) ++ rest = _
        simp [List.append_assoc]
      rw [hz, parseVal_lbrace]
      have hsk : skipWs ('\n' :: (spacesIndent (ind + 1)
          ++ (serStr k.data ++ (':' :: (' ' :: (serVal (ind + 1) v
            ++ (serFields (ind + 1) kvs
              ++ ('\n' :: (spacesIndent ind ++ ('\x7d' :: rest))))))))))
          = serStr k.data ++ (':' :: (' ' :: (serVal (ind + 1) v
            ++ (serFields (ind + 1) kvs
              ++ ('\n' :: (spacesIndent ind ++ ('\x7d' :: rest))))))) := by
        rw [skipWs_cons_true _ _ (by decide), skipWs_spacesIndent, serStr_append,
          skipWs_cons_false _ _ (by decide), ← serStr_append]
      rw [hsk, serStr_append]
      show (parseFields fuel ('"' :: ((k.data.map escChar).flatten
          ++ '"' :: (':' :: (' ' :: (serVal (ind + 1) v
            ++ (serFields (ind + 1) kvs
              ++ ('\n' :: (spacesIndent ind ++ ('\x7d' :: rest)))))))))).bind
          (fun p => some (Json.obj p.1, p.2))
        = some (Json.obj ((k, v) :: kvs), rest)
      rw [← serStr_append,
        parseFields_ser kvs k v (ind + 1) ind fuel rest hkvs
          (by simp [wVal, wFields] at hf ⊢; omega)]
      rfl

theorem wElems_le : ∀ (xs : List Json) (ind : Nat),
    (∀ x ∈ xs, ∀ ind' : Nat, wVal x ≤ 2 * (serVal ind' x).length) →
    wElems xs ≤ 2 * (serItems ind xs).length + 1
  | [], _, _ => by simp [wElems, serItems]
  | x :: xs, ind, h => by
    have hx := h x (List.mem_cons_self x xs) ind
    have hxs := wElems_le xs ind (fun y hy => h y (List.mem_cons_of_mem x hy))
    show 1 + wVal x + wElems xs ≤ 2 * (serItems ind (x :: xs)).length + 1
    have hlen : (serItems ind (x :: xs)).length
        = 2 + (spacesIndent ind).length + (serVal ind x).length
          + (serItems ind xs).length := by
      show ((',' :: '\n' :: spacesIndent ind ++ serVal ind x ++ serItems ind xs)).length = _
      simp [List.length_append]
      omega
    rw [hlen]
    omega

theorem wFields_le : ∀ (kvs : List (String × Json)) (ind : Nat),
    (∀ kv ∈ kvs, ∀ ind' : Nat, wVal (Prod.snd kv) ≤ 2 * (serVal ind' (Prod.snd kv)).length) →
    wFields kvs ≤ 2 * (serFields ind kvs).length + 1
  | [], _, _ => by simp [wFields, serFields]
  | (k, v) :: kvs, ind, h => by
    have hx := h (k, v) (List.mem_cons_self _ kvs) ind
    have hxs := wFields_le kvs ind (fun kv hkv => h kv (List.mem_cons_of_mem _ hkv))
    show 1 + wVal v + wFields kvs ≤ 2 * (serFields ind ((k, v) :: kvs)).length + 1
    have hlen : (serFields ind ((k, v) :: kvs)).length
        = 4 + (spacesIndent ind).length + (serStr k.data).length
          + (serVal ind v).length + (serFields ind kvs).length := by
      show ((',' :: '\n' :: spacesIndent ind ++ serStr k.data ++ ':' :: ' '
          :: serVal ind v ++ serFields ind kvs)).length = _
      simp [List.length_append]
      omega
    rw [hlen]
    simp only [wVal] at hx
    omega

theorem wVal_le : ∀ (v : Json) (ind : Nat), wVal v ≤ 2 * (serVal ind v).length := by
  intro v
  induction v using Json.ind with
  | hnull => intro ind; simp [wVal, serVal]
  | hbool b => intro ind; cases b <;> simp [wVal, serVal]
  | hstr s => intro ind; simp [wVal, serVal, serStr]; omega
  | hnum n =>
    intro ind
    show wVal (.num n) ≤ 2 * (intChars n).length
    by_cases hn : n < 0
    · rw [intChars, if_pos hn]
      simp [wVal]
      omega
    · rw [intChars, if_neg hn]
      obtain ⟨c, tail, heq, _⟩ := natChars_head n.toNat
      rw [heq]
      simp [wVal]
      omega
  | harr xs hxs =>
    intro ind
    match xs with
    | [] => simp [wVal, wElems, serVal]
    | x :: xs =>
      have hlen : (serVal ind (.arr (x :: xs))).length
          = 4 + (spacesIndent (ind + 1)).length + (serVal (ind + 1) x).length
            + (serItems (ind + 1) xs).length + (spacesIndent ind).length := by
        show (('[' :: '\n' :: spacesIndent (ind + 1) ++ serVal (ind + 1) x
            ++ serItems (ind + 1) xs ++ '\n' :: spacesIndent ind ++ [']'])).length = _
        simp [List.length_append]
        omega
      show wVal (.arr (x :: xs)) ≤ 2 * (serVal ind (.arr (x :: xs))).length
      rw [hlen]
      have hx := hxs x (List.mem_cons_self x xs) (ind + 1)
      have he := wElems_le xs (ind + 1) (fun y hy => hxs y (List.mem_cons_of_mem x hy))
      simp only [wVal, wElems]
      omega
  | hobj kvs hkvs =>
    intro ind
    match kvs with
    | [] => simp [wVal, wFields, serVal]
    | (k, v) :: kvs =>
      have hlen : (serVal ind (.obj ((k, v) :: kvs))).length
          = 6 + (spacesIndent (ind + 1)).length + (serStr k.data).length
            + (serVal (ind + 1) v).length + (serFields (ind + 1) kvs).length
            + (spacesIndent ind).length := by
        show (('\x7b' :: '\n' :: spacesIndent (ind + 1) ++ serStr k.data ++ ':' :: ' '
            :: serVal (ind + 1) v ++ serFields (ind + 1) kvs
            ++ '\n' :: spacesIndent ind ++ ['\x7d'])).length = _
        simp [List.length_append]
        omega
      show wVal (.obj ((k, v) :: kvs)) ≤ 2 * (serVal ind (.obj ((k, v) :: kvs))).length
      rw [hlen]
      have hx := hkvs (k, v) (List.mem_cons_self _ kvs) (ind + 1)
      have he := wFields_le kvs (ind + 1)
        (fun kv hkv => hkvs kv (List.mem_cons_of_mem _ hkv))
      simp only [wVal, wFields] at hx ⊢
      omega

theorem pyJsonLoads_ser (w : Json) :
    pyJsonLoads (String.mk (serVal 0 w) ++ "\n") = some w := by
  have hdata : (String.mk (serVal 0 w) ++ "\n").data = serVal 0 w ++ ['\n'] := rfl
  have hskip : skipWs ((String.mk (serVal 0 w) ++ "\n").data) = serVal 0 w ++ ['\n'] := by
    rw [hdata, skipWs_serVal]
  rw [pyJsonLoads, hskip]
  have hw : wVal w ≤ 2 * (serVal 0 w ++ ['\n']).length + 2 := by
    have := wVal_le w 0
    simp [List.length_append]
    omega
  rw [parseVal_ser w 0 _ ['\n'] hw rfl]
  rfl

theorem deepSort_scalar (v : Json) (h : scalarVal v = true) : deepSort v = v := by
  match v with
  | .null => rfl
  | .bool b => rfl
  | .str s => rfl
  | .num n => rfl
  | .arr xs => exact absurd h (by simp [scalarVal])
  | .obj kvs => exact absurd h (by simp [scalarVal])

theorem deepSortFields_scalar : ∀ (b : Broker), scalarBroker b = true → deepSortFields b = b
  | [], _ => rfl
  | (k, v) :: rest, h => by
    rw [scalarBroker, List.all_cons, Bool.and_eq_true] at h
    rw [deepSortFields, deepSort_scalar v h.1,
      deepSortFields_scalar rest (by rw [scalarBroker]; exact h.2)]

theorem deepSortList_map_obj : ∀ (bs : List Broker),
    deepSortList (bs.map Json.obj)
      = bs.map (fun b => Json.obj (isortBy (fun kv => kv.1.data) lexLt (deepSortFields b)))
  | [] => rfl
  | b :: bs => by
    rw [List.map_cons, deepSortList, deepSortList_map_obj bs, deepSort, List.map_cons]

theorem dictGet_perm : ∀ {l1 l2 : Broker}, l1.Perm l2 → (dictKeys l1).Nodup →
    ∀ k, dictGet l1 k = dictGet l2 k := by
  intro l1 l2 hp
  induction hp with
  | nil => intro _ k; rfl
  | cons x h ih =>
    rename_i t1 t2
    obtain ⟨xk, xv⟩ := x
    intro hnd k
    rw [dictGet, dictGet]
    have hnd' : (dictKeys t1).Nodup := by
      rw [dictKeys, List.map_cons] at hnd
      rw [dictKeys]
      exact List.Nodup.of_cons hnd
    rw [ih hnd' k]
  | swap x y l =>
    obtain ⟨xk, xv⟩ := x
    obtain ⟨yk, yv⟩ := y
    intro hnd k
    rw [dictKeys, List.map_cons, List.map_cons, List.nodup_cons, List.nodup_cons] at hnd
    have hxy : yk ≠ xk := fun he => hnd.1 (by rw [he]; exact List.mem_cons_self _ _)
    rw [dictGet, dictGet, dictGet, dictGet]
    by_cases hx : xk = k
    · by_cases hy : yk = k
      · exact absurd (hy.trans hx.symm) hxy
      · simp only [if_pos hx, if_neg hy]
    · by_cases hy : yk = k
      · simp only [if_pos hy, if_neg hx]
      · simp only [if_neg hx, if_neg hy]
  | trans h1 h2 ih1 ih2 =>
    rename_i m1 m2 m3
    intro hnd k
    rw [ih1 hnd k]
    have hnd2 : (dictKeys m2).Nodup := by
      rw [dictKeys]
      exact ((h1.map Prod.fst).nodup_iff).mp (by rw [dictKeys] at hnd; exact hnd)
    rw [ih2 hnd2 k]

/-- Claim C4: for a valid inventory (records with unique keys and
scalar field values, as the data model prescribes), parsing the JSON
export of the filtered-and-ordered pipeline yields exactly that record
sequence: each record comes back with its members sorted by key
(`sort_keys=True`), which is the same mapping — every lookup is
unchanged — so the parse-after-serialize round trip is the identity on
the record sequence. -/
theorem export_json_round_trip :
    ∀ (inv : List Broker) (pf : Option String) (rp ri rpay : Option Bool) (cf : Option String),
    (∀ b ∈ inv, scalarBroker b = true ∧ (dictKeys b).Nodup) →
    pyJsonLoads (export_json (sort_brokers (filter_inventory inv pf rp ri rpay cf)))
      = some (Json.arr ((sort_brokers (filter_inventory inv pf rp ri rpay cf)).map
          (fun b => Json.obj (isortBy (fun kv => kv.1.data) lexLt b))))
    ∧ (∀ b ∈ sort_brokers (filter_inventory inv pf rp ri rpay cf), ∀ k : String,
        dictGet (isortBy (fun kv => kv.1.data) lexLt b) k = dictGet b k) := by
  intro inv pf rp ri rpay cf hvalid
  have hmem : ∀ b ∈ sort_brokers (filter_inventory inv pf rp ri rpay cf), b ∈ inv := by
    intro b hb
    have h1 : b ∈ filter_inventory inv pf rp ri rpay cf :=
      (isortBy_perm brokerKey keyLt _).mem_iff.mp hb
    exact (List.filter_sublist inv).mem h1
  constructor
  · show pyJsonLoads (pyJsonDumps (Json.arr ((sort_brokers
        (filter_inventory inv pf rp ri rpay cf)).map Json.obj)) ++ "\n") = _
    rw [pyJsonDumps, pyJsonLoads_ser]
    congr 1
    show Json.arr (deepSortList ((sort_brokers
        (filter_inventory inv pf rp ri rpay cf)).map Json.obj)) = _
    rw [deepSortList_map_obj]
    congr 1
    apply List.map_congr_left
    intro b hb
    rw [deepSortFields_scalar b (hvalid b (hmem b hb)).1]
  · intro b hb k
    have hnd : (dictKeys b).Nodup := (hvalid b (hmem b hb)).2
    have hnd2 : (dictKeys (isortBy (fun kv => kv.1.data) lexLt b)).Nodup := by
      rw [dictKeys]
      rw [dictKeys] at hnd
      exact (((isortBy_perm (fun kv => kv.1.data) lexLt b).map Prod.fst).nodup_iff).mpr hnd
    exact dictGet_perm (isortBy_perm (fun kv => kv.1.data) lexLt b) hnd2 k

/-- Witness for C4 at a concrete two-field record. -/
theorem export_json_round_trip_witness :
    pyJsonLoads (export_json (sort_brokers (filter_inventory
        [[("requires_phone", Json.bool true), ("name", Json.str "A")]]
        none none none none none)))
      = some (Json.arr [Json.obj [("name", Json.str "A"),
          ("requires_phone", Json.bool true)]]) :=
  ((export_json_round_trip
      [[("requires_phone", Json.bool true), ("name", Json.str "A")]]
      none none none none none (by decide)).1).trans (by decide)
